import Mathlib

/-!
OpenList-Proxy: the access-decision and forwarding engine.

A shallow embedding of `openlist-proxy.go` and `geo.go`.

* Go strings are Lean strings; string functions work on the character list.
* `http.Header` (a Go map from names to value slices) is an association list;
  list order stands for the unspecified iteration order of the Go map, so a
  statement proved for every list holds for every iteration order.
* The collaborators outside the repository (signature verifier, IP parser,
  geo database, link service, HTTP client, Unicode tables) are fields of `Env`.
* `http.ResponseWriter` is a record of the status lines, headers and body the
  server sends for the calls the handler makes on it.
-/

namespace OpenListProxy

/-! ## Characters and strings (Go packages `strings`, `unicode`) -/

/-- ASCII upper-case letter `A`..`Z`. -/
def isUpperAscii (c : Char) : Bool := decide (65 ≤ c.toNat) && decide (c.toNat ≤ 90)

/-- ASCII lower-case letter `a`..`z`. -/
def isLowerAscii (c : Char) : Bool := decide (97 ≤ c.toNat) && decide (c.toNat ≤ 122)

/-- Go `c += 'a' - 'A'` on an upper-case ASCII letter, identity elsewhere. -/
def lowerAscii (c : Char) : Char := if isUpperAscii c then Char.ofNat (c.toNat + 32) else c

/-- Go `c -= 'a' - 'A'` on a lower-case ASCII letter, identity elsewhere. -/
def upperAscii (c : Char) : Char := if isLowerAscii c then Char.ofNat (c.toNat - 32) else c

/-- Go `unicode.ToLower`: ASCII is handled inline, everything else goes through the
Unicode case table, which is the parameter `tbl`. -/
def toLowerRune (tbl : Char → Char) (c : Char) : Char :=
  if c.toNat < 128 then lowerAscii c else tbl c

/-- Go `strings.ToLower`. -/
def ToLower (tbl : Char → Char) (s : String) : String := ⟨s.data.map (toLowerRune tbl)⟩

/-- Go `strings.HasPrefix` on character lists. -/
def hasPrefixList : List Char → List Char → Bool
  | _, [] => true
  | [], _ :: _ => false
  | c :: s, p :: ps => decide (c = p) && hasPrefixList s ps

/-- Go `strings.HasPrefix`. -/
def HasPrefix (s pre : String) : Bool := hasPrefixList s.data pre.data

/-- Go `strings.Contains` on character lists: `sub` occurs at some position of `s`. -/
def containsList : List Char → List Char → Bool
  | [], sub => hasPrefixList [] sub
  | c :: s, sub => hasPrefixList (c :: s) sub || containsList s sub

/-- Go `strings.Contains`. -/
def Contains (s sub : String) : Bool := containsList s.data sub.data

/-- Go `unicode.IsSpace`: the Latin-1 spaces and the other `White_Space` code points. -/
def isSpace (c : Char) : Bool :=
  let n := c.toNat
  decide (n = 9) || decide (n = 10) || decide (n = 11) || decide (n = 12) || decide (n = 13)
    || decide (n = 32) || decide (n = 133) || decide (n = 160) || decide (n = 5760)
    || (decide (8192 ≤ n) && decide (n ≤ 8202)) || decide (n = 8232) || decide (n = 8233)
    || decide (n = 8239) || decide (n = 8287) || decide (n = 12288)

/-- Go `strings.TrimSpace`: leading and trailing white space removed. -/
def TrimSpace (s : String) : String :=
  ⟨((s.data.dropWhile isSpace).reverse.dropWhile isSpace).reverse⟩

/-- Go `strings.Split(s, ",")` on character lists; the accumulator `cur` is the
field being read, in reverse. The result is never empty. -/
def splitCommaAux : List Char → List Char → List String
  | [], cur => [⟨cur.reverse⟩]
  | c :: s, cur => if c = ',' then ⟨cur.reverse⟩ :: splitCommaAux s [] else splitCommaAux s (c :: cur)

/-- Go `strings.Split(s, ",")`. -/
def splitComma (s : String) : List String := splitCommaAux s.data []

/-- One rune pair of Go `strings.EqualFold`: equal, or (after ordering the pair) an
ASCII upper/lower pair, or, when the larger rune is not ASCII, related by the Unicode
simple-folding orbit, which is the parameter `orbit`. -/
def equalFoldRune (orbit : Char → Char → Bool) (a b : Char) : Bool :=
  if a = b then true
  else
    let lo := if b.toNat < a.toNat then b else a
    let hi := if b.toNat < a.toNat then a else b
    if hi.toNat < 128 then
      decide (65 ≤ lo.toNat) && decide (lo.toNat ≤ 90) && decide (hi.toNat = lo.toNat + 32)
    else orbit lo hi

/-- Go `strings.EqualFold` on character lists. -/
def equalFoldList (orbit : Char → Char → Bool) : List Char → List Char → Bool
  | [], [] => true
  | a :: s, b :: t => equalFoldRune orbit a b && equalFoldList orbit s t
  | [], _ :: _ => false
  | _ :: _, [] => false

/-- Go `strings.EqualFold`. -/
def EqualFold (orbit : Char → Char → Bool) (s t : String) : Bool :=
  equalFoldList orbit s.data t.data

/-! ## Header maps (Go `net/http.Header`, `net/textproto.MIMEHeader`) -/

/-- Go `textproto.validHeaderFieldByte`: the RFC 7230 token characters. -/
def validHeaderFieldByte (c : Char) : Bool :=
  let n := c.toNat
  (decide (48 ≤ n) && decide (n ≤ 57)) || (decide (65 ≤ n) && decide (n ≤ 90))
    || (decide (97 ≤ n) && decide (n ≤ 122))
    || decide (n = 33) || decide (n = 35) || decide (n = 36) || decide (n = 37)
    || decide (n = 38) || decide (n = 39) || decide (n = 42) || decide (n = 43)
    || decide (n = 45) || decide (n = 46) || decide (n = 94) || decide (n = 95)
    || decide (n = 96) || decide (n = 124) || decide (n = 126)

/-- The canonicalising loop of Go `textproto.canonicalMIMEHeaderKey`: a letter is
upper-cased at the start and after a dash, lower-cased elsewhere. -/
def canonAux : Bool → List Char → List Char
  | _, [] => []
  | upper, c :: cs =>
    let d := if upper then upperAscii c else lowerAscii c
    d :: canonAux (decide (d = '-')) cs

/-- Go `textproto.CanonicalMIMEHeaderKey`: a key with a byte that is not a token
character is returned unchanged. -/
def CanonicalMIMEHeaderKey (s : String) : String :=
  if s.data.all validHeaderFieldByte then ⟨canonAux true s.data⟩ else s

/-- Go `http.Header`, `map[string][]string`. -/
abbrev Header := List (String × List String)

/-- Go map read `h[k]` (the nil slice when the key is absent). -/
def rawGet : Header → String → List String
  | [], _ => []
  | (k, vv) :: t, key => if k = key then vv else rawGet t key

/-- Go map write `h[k] = vv`. -/
def rawSet : Header → String → List String → Header
  | [], key, vv => [(key, vv)]
  | (k, ww) :: t, key, vv => if k = key then (key, vv) :: t else (k, ww) :: rawSet t key vv

/-- Go `Header.Get`: first value of the canonical key, or the empty string. -/
def Header.Get (h : Header) (key : String) : String :=
  match rawGet h (CanonicalMIMEHeaderKey key) with
  | [] => ""
  | v :: _ => v

/-- Go `Header.Set`. -/
def Header.Set (h : Header) (key value : String) : Header :=
  rawSet h (CanonicalMIMEHeaderKey key) [value]

/-- Go `Header.Add`. -/
def Header.Add (h : Header) (key value : String) : Header :=
  rawSet h (CanonicalMIMEHeaderKey key) (rawGet h (CanonicalMIMEHeaderKey key) ++ [value])

/-- Go `Header.Del`. -/
def Header.Del (h : Header) (key : String) : Header :=
  h.filter (fun e => !decide (e.1 = CanonicalMIMEHeaderKey key))

/-- Go `maps.Copy(dst, src)`. -/
def mapsCopy (dst src : Header) : Header :=
  src.foldl (fun d e => rawSet d e.1 e.2) dst

/-- Go `url.Values.Get`: first value of the key as written, or the empty string. -/
def Values.Get (q : List (String × List String)) (key : String) : String :=
  match rawGet q key with
  | [] => ""
  | v :: _ => v

/-! ## Data model (`openlist-proxy.go`, lines 19-33) -/

/-- Go `Link`. -/
structure Link where
  Url : String
  Header : Header
deriving DecidableEq, Repr

/-- Go `LinkResp`, the decoded envelope of the link service. -/
structure LinkResp where
  Code : Int
  Message : String
  Data : Link
deriving DecidableEq, Repr

/-- Go `Result`, the JSON error envelope with fields `code` and `msg`. -/
structure Result where
  Code : Int
  Msg : String
deriving DecidableEq, Repr

/-- Go `net.IP`, a byte slice; the nil slice is `none` of `Option IP`. -/
abbrev IP := List Nat

/-- The parts of Go `*http.Request` the handler reads: `r.Method`, `r.URL.Path`,
`r.URL.Query()`, `r.Header` and `r.RemoteAddr`. -/
structure Request where
  Method : String
  Path : String
  Query : List (String × List String)
  Header : Header
  RemoteAddr : String
deriving DecidableEq, Repr

/-- The outbound request `upReq` handed to `HttpClient.Do`. -/
structure UpstreamRequest where
  Method : String
  Url : String
  Header : Header
deriving DecidableEq, Repr

/-- The parts of the upstream `*http.Response` the handler reads. -/
structure UpstreamResponse where
  StatusCode : Int
  Header : Header
  Body : String
deriving DecidableEq, Repr

/-- A piece of response body: the JSON encoding of a `Result`
(`json.NewEncoder(w).Encode`), or the upstream body copied by `io.CopyBuffer`. -/
inductive Chunk where
  | json (r : Result)
  | stream (body : String)
deriving DecidableEq, Repr

/-- The state of Go `http.ResponseWriter` as the handler drives it: the header map,
the final status line with the headers as they were when it was written, the interim
(1xx) status lines written before it, the body the writer sends on, and whether the
request it answers is a HEAD request. -/
structure ResponseWriter where
  header : Header
  status : Option (Int × Header)
  interim : List (Int × Header)
  body : List Chunk
  head : Bool
deriving DecidableEq, Repr

/-- The calls a run of the handler makes on its collaborators, in order. -/
inductive Event where
  | verify (path sign : String)
  | resolve (path : String)
  | fetch (req : UpstreamRequest)
deriving DecidableEq, Repr

/-- The collaborators of the handler that live outside the repository, and the
process-wide configuration. -/
structure Env where
  /-- The flag `disable-sign`. -/
  disableSign : Bool
  /-- Go `s.Verify(path, sign)`: `none` is the nil error, `some e` the error text. -/
  verify : String → String → Option String
  /-- Go `net.ParseIP`; `none` is the nil result. -/
  parseIP : String → Option IP
  /-- Go `net.SplitHostPort`: host and port, or the error text. -/
  splitHostPort : String → Except String (String × String)
  /-- The loaded geo database `geoDB` (`none` is nil); the function is
  `geoDB.Country(ip)` followed by `record.Country.IsoCode`. -/
  geoDB : Option (IP → Except String String)
  /-- The POST to `/api/fs/link` and the decoding of its body, for a path. -/
  linkService : String → Except String LinkResp
  /-- The error of Go `http.NewRequest(method, url, nil)`, `none` when it succeeds. -/
  newRequestErr : String → String → Option String
  /-- Go `HttpClient.Do`. -/
  roundTrip : UpstreamRequest → Except String UpstreamResponse
  /-- The Unicode lower-case table behind `unicode.ToLower`. -/
  lowerTable : Char → Char
  /-- The Unicode simple-folding orbits behind `unicode.SimpleFold`. -/
  foldOrbit : Char → Char → Bool

/-- The result of one run of `downHandle`: the response writer as the handler left
it, the collaborator calls it made, and the message of the run-time fault that ended
it, if any. -/
structure Outcome where
  w : ResponseWriter
  events : List Event
  fault : Option String
deriving DecidableEq, Repr

/-! ## The response writer (Go `net/http`, `response.WriteHeader` and `Write`) -/

/-- Go `ResponseWriter.WriteHeader`. A second final status is ignored; a code outside
100..999 is refused with a run-time fault (`checkWriteHeaderCode`); a 1xx code other
than 101 is sent as an interim header and leaves the final status open; any other
code becomes the final status, with the headers as they are at that moment. -/
def WriteHeader (w : ResponseWriter) (code : Int) : Except String ResponseWriter :=
  if w.status.isSome then .ok w
  else if code < 100 ∨ code > 999 then .error "invalid WriteHeader code"
  else if 100 ≤ code ∧ code ≤ 199 ∧ code ≠ 101 then
    .ok { w with interim := w.interim ++ [(code, w.header)] }
  else .ok { w with status := some (code, w.header) }

/-- Go `net/http`, `bodyAllowedForStatus`: a 1xx, 204 or 304 response has no body. -/
def bodyAllowedForStatus (status : Int) : Bool :=
  if 100 ≤ status ∧ status ≤ 199 then false
  else if status = 204 then false
  else if status = 304 then false
  else true

/-- Go `ResponseWriter.Write` of a non-empty chunk: the first write without a final
status writes status 200 implicitly; when the final status allows no body the write
is refused (`ErrBodyNotAllowed`, which the handler ignores), and for a HEAD request
the server swallows it; otherwise the chunk is sent. A write cut short by the client
going away, or by a `Content-Length` header smaller than the body, leaves status and
headers as they are; the chunk then stands for the part that went through. -/
def Write (w : ResponseWriter) (c : Chunk) : ResponseWriter :=
  let w1 := if w.status.isSome then w else { w with status := some (200, w.header) }
  match w1.status with
  | none => w1
  | some (code, _) =>
    if bodyAllowedForStatus code && !w1.head then { w1 with body := w1.body ++ [c] } else w1

/-! ## `geo.go` -/

/-- Go `GetClientIP` (`geo.go`, lines 38-58). -/
def GetClientIP (env : Env) (r : Request) : Option IP :=
  let xff := r.Header.Get "X-Forwarded-For"
  let fromXff : Option IP :=
    if xff ≠ "" then env.parseIP (TrimSpace ((splitComma xff).headD "")) else none
  match fromXff with
  | some parsed => some parsed
  | none =>
    let xrip := r.Header.Get "X-Real-IP"
    let fromXrip : Option IP := if xrip ≠ "" then env.parseIP (TrimSpace xrip) else none
    match fromXrip with
    | some parsed => some parsed
    | none =>
      match env.splitHostPort r.RemoteAddr with
      | .ok (host, _) => env.parseIP host
      | .error _ => env.parseIP r.RemoteAddr

/-- Go `IsChinaIP` (`geo.go`, lines 63-74). -/
def IsChinaIP (env : Env) (ip : Option IP) : Bool :=
  match ip, env.geoDB with
  | none, _ => true
  | some _, none => true
  | some a, some country =>
    match country a with
    | .error _ => true
    | .ok iso => decide (iso = "CN")

/-- Go `IsNonChinaRequest` (`geo.go`, lines 77-80). -/
def IsNonChinaRequest (env : Env) (r : Request) : Bool :=
  !IsChinaIP env (GetClientIP env r)

/-! ## `openlist-proxy.go` -/

/-- Go `errorResponse` (lines 80-84): content type, status, JSON envelope. A refused
status code ends the run before the body is encoded. -/
def errorResponse (w : ResponseWriter) (httpStatus : Int) (msg : String) :
    ResponseWriter × Option String :=
  let w1 := { w with header := w.header.Set "Content-Type" "application/json; charset=utf-8" }
  match WriteHeader w1 httpStatus with
  | .error e => (w1, some e)
  | .ok w2 => (Write w2 (.json ⟨httpStatus, msg⟩), none)

/-- Go `setCORSHeaders` (lines 86-91). -/
def setCORSHeaders (w : ResponseWriter) : ResponseWriter :=
  let h1 := w.header.Set "Access-Control-Allow-Origin" "*"
  let h2 := h1.Set "Access-Control-Allow-Methods" "GET,HEAD,OPTIONS"
  let h3 := h2.Set "Access-Control-Allow-Headers" "Range,Content-Type,Authorization"
  let h4 := h3.Set "Access-Control-Expose-Headers" "Content-Length,Content-Range,Accept-Ranges"
  { w with header := h4 }

/-- Go `getClientUA` (lines 93-98). -/
def getClientUA (r : Request) : String :=
  let ua := r.Header.Get "X-Client-UA"
  if ua ≠ "" then ua else r.Header.Get "User-Agent"

/-- The slice `directKeywords` of `isDirectUA`. -/
def directKeywords : List String := ["aria2", "wget", "curl", "idm", "openlist-direct"]

/-- Go `isDirectUA` (lines 100-112). -/
def isDirectUA (tbl : Char → Char) (ua : String) : Bool :=
  if ua = "" then false
  else directKeywords.any (fun k => Contains (ToLower tbl ua) k)

/-- Go `hopByHopHeaders` (lines 114-124). -/
def hopByHopHeaders : List String :=
  ["Connection", "Proxy-Connection", "Keep-Alive", "Proxy-Authenticate",
   "Proxy-Authorization", "TE", "Trailer", "Transfer-Encoding", "Upgrade"]

/-- Go `delHopByHop` (lines 126-136): the fixed list is deleted first, then the
`Connection` header is read from the map and the names it lists are deleted. -/
def delHopByHop (h : Header) : Header :=
  let h1 := hopByHopHeaders.foldl (fun m k => m.Del k) h
  let c := h1.Get "Connection"
  if c ≠ "" then (splitComma c).foldl (fun m f => m.Del (TrimSpace f)) h1 else h1

/-- The header merge of `downHandle` (lines 240-251): a copy of the inbound headers,
then every header of the link service whose `Get` on the outbound map is empty is
added value by value. -/
def mergeHeaders (inbound linkHeader : Header) : Header :=
  linkHeader.foldl
    (fun up e => if up.Get e.1 ≠ "" then up else e.2.foldl (fun m v => m.Add e.1 v) up)
    (mapsCopy [] inbound)

/-- The names the response copy loop of `downHandle` skips (lines 265-274). -/
def skippedResponseHeaders : List String :=
  ["Set-Cookie", "Access-Control-Allow-Origin", "Access-Control-Allow-Methods",
   "Access-Control-Allow-Headers", "Access-Control-Expose-Headers"]

/-- The response copy loop of `downHandle` (lines 264-278). -/
def relayHeaders (orbit : Char → Char → Bool) (h upstream : Header) : Header :=
  upstream.foldl
    (fun m e =>
      if skippedResponseHeaders.any (fun n => EqualFold orbit e.1 n) then m
      else e.2.foldl (fun m2 v => m2.Add e.1 v) m)
    h

/-- The scheme fix of `downHandle` (lines 217-220). -/
def fixScheme (url : String) : String :=
  if !HasPrefix url "http" then "http:" ++ url else url

/-- An `errorResponse` that ends the run. -/
def endWithError (w : ResponseWriter) (httpStatus : Int) (msg : String)
    (events : List Event) : Outcome :=
  ⟨(errorResponse w httpStatus msg).1, events, (errorResponse w httpStatus msg).2⟩

/-- A bare `w.WriteHeader(code)` that ends the run. -/
def endWithStatus (w : ResponseWriter) (code : Int) (events : List Event) : Outcome :=
  match WriteHeader w code with
  | .error e => ⟨w, events, some e⟩
  | .ok w2 => ⟨w2, events, none⟩

/-- The proxy branch of `downHandle` (lines 230-298), entered with the CORS headers
set, the link resolved to `targetURL` and the routing decision `proxy`. -/
def proxyTo (env : Env) (r : Request) (w : ResponseWriter) (resp : LinkResp)
    (targetURL : String) (events : List Event) : Outcome :=
  match env.newRequestErr r.Method targetURL with
  | some e => endWithError w 500 e events
  | none =>
    let upReq : UpstreamRequest :=
      ⟨r.Method, targetURL, delHopByHop (mergeHeaders r.Header resp.Data.Header)⟩
    let events2 := events ++ [Event.fetch upReq]
    match env.roundTrip upReq with
    | .error e => endWithError w 502 e events2
    | .ok upRes =>
      let w1 := setCORSHeaders { w with header := relayHeaders env.foldOrbit w.header upRes.Header }
      match WriteHeader w1 upRes.StatusCode with
      | .error e => ⟨w1, events2, some e⟩
      | .ok w2 =>
        if r.Method = "HEAD" then ⟨w2, events2, none⟩
        else if upRes.Body = "" then ⟨w2, events2, none⟩
        else ⟨Write w2 (.stream upRes.Body), events2, none⟩

/-- The part of `downHandle` behind the signature gate (lines 196-298): routing
decision, link resolution, scheme fix, then redirect or proxy. `events` are the
collaborator calls made so far. -/
def afterGate (env : Env) (r : Request) (w : ResponseWriter) (events : List Event) : Outcome :=
  let ua := getClientUA r
  let direct := isDirectUA env.lowerTable ua || IsNonChinaRequest env r
  let events2 := events ++ [Event.resolve r.Path]
  match env.linkService r.Path with
  | .error e => endWithError w 502 e events2
  | .ok resp =>
    if resp.Code ≠ 200 then endWithError w resp.Code resp.Message events2
    else
      let targetURL := fixScheme resp.Data.Url
      if direct then
        endWithStatus { w with header := w.header.Set "Location" targetURL } 302 events2
      else proxyTo env r w resp targetURL events2

/-- Go `downHandle` (lines 168-298), run on the fresh response writer the server
hands to the handler of request `r`. -/
def downHandle (env : Env) (r : Request) : Outcome :=
  let w0 : ResponseWriter := ⟨[], none, [], [], decide (r.Method = "HEAD")⟩
  if r.Method = "OPTIONS" then endWithStatus (setCORSHeaders w0) 204 []
  else if r.Method ≠ "GET" ∧ r.Method ≠ "HEAD" then
    endWithError (setCORSHeaders w0) 405 "Only GET/HEAD/OPTIONS are allowed" []
  else
    let w := setCORSHeaders w0
    let filePath := r.Path
    if env.disableSign then afterGate env r w []
    else
      let signValue := Values.Get r.Query "sign"
      match env.verify filePath signValue with
      | some e => endWithError w 401 e [Event.verify filePath signValue]
      | none => afterGate env r w [Event.verify filePath signValue]

/-! ## Specification-side definitions -/

/-- The client-IP resolution order as the specification words it: the first of the
trimmed first token of `X-Forwarded-For`, the trimmed `X-Real-IP` and the host of the
peer address that parses, else the raw peer address parsed as an IP. -/
def clientIPBySpec (env : Env) (r : Request) : Option IP :=
  match env.parseIP (TrimSpace ((splitComma (r.Header.Get "X-Forwarded-For")).headD "")) with
  | some ip => some ip
  | none =>
    match env.parseIP (TrimSpace (r.Header.Get "X-Real-IP")) with
    | some ip => some ip
    | none =>
      let fromHost : Option IP :=
        match env.splitHostPort r.RemoteAddr with
        | .ok (host, _) => env.parseIP host
        | .error _ => none
      match fromHost with
      | some ip => some ip
      | none => env.parseIP r.RemoteAddr

/-- The routing condition as the specification words it: the client user-agent
contains, ignoring case, one of the download-tool names, or the caller is classified
non-domestic. -/
def DirectBySpec (env : Env) (r : Request) : Prop :=
  (∃ k ∈ ["aria2", "wget", "curl", "idm", "openlist-direct"],
      k.data <:+: (ToLower env.lowerTable (getClientUA r)).data)
    ∨ IsNonChinaRequest env r = true

/-- The events of the signature gate: one `verify` call unless signing is disabled. -/
def gateEvents (env : Env) (r : Request) : List Event :=
  if env.disableSign then [] else [Event.verify r.Path (Values.Get r.Query "sign")]

/-- The four CORS headers carry exactly their fixed values. -/
def CorsFixed (h : Header) : Prop :=
  rawGet h "Access-Control-Allow-Origin" = ["*"]
  ∧ rawGet h "Access-Control-Allow-Methods" = ["GET,HEAD,OPTIONS"]
  ∧ rawGet h "Access-Control-Allow-Headers" = ["Range,Content-Type,Authorization"]
  ∧ rawGet h "Access-Control-Expose-Headers" = ["Content-Length,Content-Range,Accept-Ranges"]

/-- The four CORS header names with their fixed values. -/
def corsTable : List (String × String) :=
  [("Access-Control-Allow-Origin", "*"),
   ("Access-Control-Allow-Methods", "GET,HEAD,OPTIONS"),
   ("Access-Control-Allow-Headers", "Range,Content-Type,Authorization"),
   ("Access-Control-Expose-Headers", "Content-Length,Content-Range,Accept-Ranges")]

/-- Every entry of the header map whose name folds to a CORS header name is that
header with exactly its one fixed value: no CORS header is present under another
spelling or with another value. -/
def CorsOnly (orbit : Char → Char → Bool) (h : Header) : Prop :=
  ∀ e ∈ h, ∀ c ∈ corsTable, EqualFold orbit e.1 c.1 = true → e = (c.1, [c.2])

/-- Names are unique and fold to a CORS name only when they are that name. -/
def KeysClean (orbit : Char → Char → Bool) (h : Header) : Prop :=
  (h.map Prod.fst).Nodup
    ∧ ∀ e ∈ h, ∀ c ∈ corsTable, EqualFold orbit e.1 c.1 = true → e.1 = c.1

/-- A property of header maps holds of the writer's header map and of the headers
as they were at every status line written so far. -/
def AtEveryStatus (P : Header → Prop) (w : ResponseWriter) : Prop :=
  P w.header ∧ (∀ c h, w.status = some (c, h) → P h) ∧ ∀ e ∈ w.interim, P e.2

/-- The header map after `setCORSHeaders` on a fresh response writer. -/
def corsHeaders : Header :=
  [("Access-Control-Allow-Origin", ["*"]),
   ("Access-Control-Allow-Methods", ["GET,HEAD,OPTIONS"]),
   ("Access-Control-Allow-Headers", ["Range,Content-Type,Authorization"]),
   ("Access-Control-Expose-Headers", ["Content-Length,Content-Range,Accept-Ranges"])]

/-- The body an error response with status `code` carries: the JSON envelope, unless
the request is a HEAD request or the status allows no body. -/
def errorBody (head : Bool) (code : Int) (msg : String) : List Chunk :=
  if bodyAllowedForStatus code && !head then [Chunk.json ⟨code, msg⟩] else []

/-- The header map of an error response: the CORS headers and the content type. -/
def errorHeaders : Header :=
  [("Access-Control-Allow-Origin", ["*"]),
   ("Access-Control-Allow-Methods", ["GET,HEAD,OPTIONS"]),
   ("Access-Control-Allow-Headers", ["Range,Content-Type,Authorization"]),
   ("Access-Control-Expose-Headers", ["Content-Length,Content-Range,Accept-Ranges"]),
   ("Content-Type", ["application/json; charset=utf-8"])]

/-! ## Example environments and requests -/

/-- A deployment with signing on: the verifier accepts the token `good`; `1.2.3.4`
is a domestic address, `8.8.8.8` a foreign one and `10.0.0.1` one the geo database
cannot look up; the link service knows one file. -/
def demoEnv : Env where
  disableSign := false
  verify := fun _ sign => if sign = "good" then none else some "sign mismatch"
  parseIP := fun s =>
    if s = "1.2.3.4" then some [1, 2, 3, 4] else if s = "8.8.8.8" then some [8, 8, 8, 8]
    else if s = "10.0.0.1" then some [10, 0, 0, 1] else none
  splitHostPort := fun s =>
    if s = "1.2.3.4:5000" then .ok ("1.2.3.4", "5000")
    else if s = "8.8.8.8:5000" then .ok ("8.8.8.8", "5000")
    else .error "missing port in address"
  geoDB := some (fun ip =>
    if ip = [1, 2, 3, 4] then .ok "CN" else if ip = [8, 8, 8, 8] then .ok "US"
    else .error "lookup failed")
  linkService := fun path =>
    if path = "/movies/a.mkv" then .ok ⟨200, "success", ⟨"//cdn.example/a.mkv", []⟩⟩
    else .ok ⟨403, "path not allowed", ⟨"", []⟩⟩
  newRequestErr := fun _ _ => none
  roundTrip := fun _ =>
    .ok ⟨206, [("Content-Range", ["bytes 0-10/100"]), ("Set-Cookie", ["sid=1"]),
      ("Access-Control-Allow-Origin", ["https://upstream.example"])], "0123456789A"⟩
  lowerTable := id
  foldOrbit := fun _ _ => false

/-- A signed GET from a domestic client without user-agent. -/
def demoReq : Request :=
  ⟨"GET", "/movies/a.mkv", [("sign", ["good"])], [("Range", ["bytes=0-10"])], "1.2.3.4:5000"⟩

/-- The same request relayed by a front proxy for a foreign client. -/
def forwardedReq : Request :=
  { demoReq with Header := [("X-Forwarded-For", [" 8.8.8.8 , 10.0.0.1"])] }

/-- The same request with a peer address that is no IP address. -/
def unknownPeerReq : Request := { demoReq with RemoteAddr := "localhost" }

/-- The same request from an address the geo database cannot look up. -/
def lookupFailReq : Request :=
  { demoReq with Header := [("X-Real-IP", ["10.0.0.1"])], RemoteAddr := "10.0.0.1" }

/-- The outbound request the example deployment builds for `demoReq`. -/
def demoUpReq : UpstreamRequest :=
  ⟨"GET", "http://cdn.example/a.mkv", [("Range", ["bytes=0-10"])]⟩

/-- The upstream response of the example deployment. -/
def demoUpRes : UpstreamResponse :=
  ⟨206, [("Content-Range", ["bytes 0-10/100"]), ("Set-Cookie", ["sid=1"]),
    ("Access-Control-Allow-Origin", ["https://upstream.example"])], "0123456789A"⟩

/-- The example deployment with signing disabled. -/
def unsignedEnv : Env := { demoEnv with disableSign := true }

/-- The request of `demoReq` without a `sign` parameter. -/
def unsignedReq : Request := { demoReq with Query := [] }

/-- A request for a path the link service refuses with code 403. -/
def refusedReq : Request := { demoReq with Path := "/secret" }

/-- A deployment whose link service answers with envelope code 0 for `/zero` and with
envelope code 103 for every other path. -/
def oddCodeEnv : Env :=
  { demoEnv with
    linkService := fun path =>
      if path = "/zero" then .ok ⟨0, "", ⟨"", []⟩⟩ else .ok ⟨103, "early hints", ⟨"", []⟩⟩ }

/-- A signed GET for `/zero`. -/
def zeroReq : Request := { demoReq with Path := "/zero" }

/-- A deployment whose link service returns a URL without scheme and without `//`. -/
def bareUrlEnv : Env :=
  { demoEnv with
    linkService := fun _ => .ok ⟨200, "success", ⟨"cdn.example/a.mkv", []⟩⟩ }

/-- A signed GET from the download tool Wget. -/
def wgetReq : Request := { demoReq with Header := [("User-Agent", ["Wget/1.21"])] }

/-- A deployment whose link service returns a URL with a space in the host, for which
`http.NewRequest` fails. -/
def badUrlEnv : Env :=
  { demoEnv with
    linkService := fun _ => .ok ⟨200, "success", ⟨"//cdn example/a.mkv", []⟩⟩
    newRequestErr := fun _ url =>
      if url = "http://cdn example/a.mkv" then some "invalid character in host name" else none }

/-- A deployment whose link service suggests a `Referer` header for the fetch. -/
def refererEnv : Env :=
  { demoEnv with
    linkService := fun _ =>
      .ok ⟨200, "success", ⟨"//cdn.example/a.mkv", [("Referer", ["https://drive.example/"])]⟩⟩ }

/-- A signed GET whose `Referer` header is present with the empty value. -/
def emptyRefererReq : Request := { demoReq with Header := [("Referer", [""])] }

/-- A signed GET that names `X-Trace` as a per-hop header in `Connection`. -/
def perHopReq : Request :=
  { demoReq with Header := [("Connection", ["keep-alive, X-Trace"]), ("X-Trace", ["abc"])] }

/-- The unsigned request as a HEAD request. -/
def unsignedHeadReq : Request := { unsignedReq with Method := "HEAD" }

/-- The refused request as a HEAD request. -/
def refusedHeadReq : Request := { refusedReq with Method := "HEAD" }

/-- A deployment whose link service answers every path with the envelope code `code`. -/
def envelopeEnv (code : Int) : Env :=
  { demoEnv with linkService := fun _ => .ok ⟨code, "upstream says no", ⟨"", []⟩⟩ }

/-- A deployment with signing disabled whose link service cannot be reached. -/
def unreachableEnv : Env :=
  { unsignedEnv with linkService := fun _ => .error "connection refused" }

/-! ## Characters -/

theorem toNat_ofNat_small (n : Nat) (h : n < 55296) : (Char.ofNat n).toNat = n := by
  have hv : n.isValidChar := Or.inl h
  simp only [Char.ofNat, hv, dite_true, Char.toNat, Char.ofNatAux]
  show (UInt32.ofNat' n _).toNat = n
  simp [UInt32.ofNat', UInt32.toNat]

theorem char_eq_iff_toNat (a b : Char) : a = b ↔ a.toNat = b.toNat :=
  ⟨fun h => by rw [h], fun h => by rw [← Char.ofNat_toNat a, ← Char.ofNat_toNat b, h]⟩

theorem equalFoldRune_ascii (orbit : Char → Char → Bool) (a b : Char)
    (ha : a.toNat < 128) (hb : b.toNat < 128) :
    equalFoldRune orbit a b = true ↔
      (a.toNat = b.toNat ∨ (65 ≤ a.toNat ∧ a.toNat ≤ 90 ∧ b.toNat = a.toNat + 32)
        ∨ (65 ≤ b.toNat ∧ b.toNat ≤ 90 ∧ a.toNat = b.toNat + 32)) := by
  unfold equalFoldRune
  by_cases hab : a = b
  · subst hab; simp
  · have hne : a.toNat ≠ b.toNat := fun h => hab ((char_eq_iff_toNat a b).2 h)
    by_cases hlt : b.toNat < a.toNat
    · simp only [hab, hlt, if_true, if_false, ha, Bool.and_eq_true, decide_eq_true_eq]
      omega
    · simp only [hab, hlt, if_false, hb, if_true, Bool.and_eq_true, decide_eq_true_eq]
      omega

theorem equalFoldRune_upperAscii (orbit : Char → Char → Bool) (c b : Char) (hb : b.toNat < 128) :
    equalFoldRune orbit (upperAscii c) b = equalFoldRune orbit c b := by
  unfold upperAscii isLowerAscii
  split
  · rename_i h
    simp only [Bool.and_eq_true, decide_eq_true_eq] at h
    have h1 : (Char.ofNat (c.toNat - 32)).toNat = c.toNat - 32 := toNat_ofNat_small _ (by omega)
    rw [Bool.eq_iff_iff, equalFoldRune_ascii orbit _ b (by omega) hb,
      equalFoldRune_ascii orbit c b (by omega) hb, h1]
    omega
  · rfl

theorem equalFoldRune_lowerAscii (orbit : Char → Char → Bool) (c b : Char) (hb : b.toNat < 128) :
    equalFoldRune orbit (lowerAscii c) b = equalFoldRune orbit c b := by
  unfold lowerAscii isUpperAscii
  split
  · rename_i h
    simp only [Bool.and_eq_true, decide_eq_true_eq] at h
    have h1 : (Char.ofNat (c.toNat + 32)).toNat = c.toNat + 32 := toNat_ofNat_small _ (by omega)
    rw [Bool.eq_iff_iff, equalFoldRune_ascii orbit _ b (by omega) hb,
      equalFoldRune_ascii orbit c b (by omega) hb, h1]
    omega
  · rfl

theorem equalFoldList_canonAux (orbit : Char → Char → Bool) (k : List Char) :
    ∀ (u : Bool) (t : List Char), (∀ b ∈ t, b.toNat < 128) →
      equalFoldList orbit (canonAux u k) t = equalFoldList orbit k t := by
  induction k with
  | nil => intro u t _; rfl
  | cons c cs ih =>
    intro u t ht
    cases t with
    | nil => simp [canonAux, equalFoldList]
    | cons b bs =>
      have hb : b.toNat < 128 := ht b (List.mem_cons_self _ _)
      have hbs : ∀ x ∈ bs, x.toNat < 128 := fun x hx => ht x (List.mem_cons_of_mem _ hx)
      simp only [canonAux, equalFoldList]
      rw [ih _ bs hbs]
      cases u
      · simp only [Bool.false_eq_true, if_false]; rw [equalFoldRune_lowerAscii orbit c b hb]
      · simp only [if_true]; rw [equalFoldRune_upperAscii orbit c b hb]

/-- Canonicalising a header name does not change what it folds to, for an ASCII name
on the other side. -/
theorem EqualFold_canonical (orbit : Char → Char → Bool) (k t : String)
    (ht : ∀ b ∈ t.data, b.toNat < 128) :
    EqualFold orbit (CanonicalMIMEHeaderKey k) t = EqualFold orbit k t := by
  unfold CanonicalMIMEHeaderKey EqualFold
  split
  · exact equalFoldList_canonAux orbit k.data true t.data ht
  · rfl

/-! ## Client address and geography (`geo.go`) -/

theorem trim_first_token_empty : TrimSpace ((splitComma "").headD "") = "" := by decide

theorem trim_empty : TrimSpace "" = "" := by decide

/-- C9: with an IP parser that rejects the empty string and every string that splits
as host:port, `GetClientIP` is the first of the trimmed first `X-Forwarded-For` token,
the trimmed `X-Real-IP` and the peer host that parses, else the parsed raw peer address. -/
theorem GetClientIP_priority (env : Env) (r : Request)
    (hempty : env.parseIP "" = none)
    (hsplit : ∀ s host port, env.splitHostPort s = .ok (host, port) → env.parseIP s = none) :
    GetClientIP env r = clientIPBySpec env r := by
  unfold GetClientIP clientIPBySpec
  by_cases hx : r.Header.Get "X-Forwarded-For" = ""
  · by_cases hr : r.Header.Get "X-Real-IP" = ""
    · simp only [hx, hr, ne_eq, not_true_eq_false, if_false, trim_first_token_empty, trim_empty,
        hempty]
      cases hs : env.splitHostPort r.RemoteAddr with
      | error e => simp
      | ok hp =>
        obtain ⟨host, port⟩ := hp
        have := hsplit _ _ _ hs
        simp only [this]; cases env.parseIP host <;> rfl
    · simp only [hx, hr, ne_eq, not_true_eq_false, not_false_eq_true, if_false, if_true,
        trim_first_token_empty, hempty]
      cases hp2 : env.parseIP (TrimSpace (r.Header.Get "X-Real-IP")) with
      | some ip => simp
      | none =>
        cases hs : env.splitHostPort r.RemoteAddr with
        | error e => simp
        | ok hp =>
          obtain ⟨host, port⟩ := hp
          have := hsplit _ _ _ hs
          simp only [this]; cases env.parseIP host <;> rfl
  · simp only [hx, ne_eq, not_false_eq_true, if_true]
    cases hp1 : env.parseIP (TrimSpace ((splitComma (r.Header.Get "X-Forwarded-For")).headD ""))
      with
    | some ip => simp
    | none =>
      by_cases hr : r.Header.Get "X-Real-IP" = ""
      · simp only [hr, ne_eq, not_true_eq_false, if_false, trim_empty, hempty]
        cases hs : env.splitHostPort r.RemoteAddr with
        | error e => simp
        | ok hp =>
          obtain ⟨host, port⟩ := hp
          have := hsplit _ _ _ hs
          simp only [this]; cases env.parseIP host <;> rfl
      · simp only [hr, ne_eq, not_false_eq_true, if_true]
        cases hp2 : env.parseIP (TrimSpace (r.Header.Get "X-Real-IP")) with
        | some ip => simp
        | none =>
          cases hs : env.splitHostPort r.RemoteAddr with
          | error e => simp
          | ok hp =>
            obtain ⟨host, port⟩ := hp
            have := hsplit _ _ _ hs
            simp only [this]; cases env.parseIP host <;> rfl

theorem demoEnv_parse_empty : demoEnv.parseIP "" = none := by decide

theorem demoEnv_split_parse (s host port : String)
    (h : demoEnv.splitHostPort s = .ok (host, port)) : demoEnv.parseIP s = none := by
  simp only [demoEnv] at h ⊢
  by_cases h1 : s = "1.2.3.4:5000"
  · subst h1; decide
  · by_cases h2 : s = "8.8.8.8:5000"
    · subst h2; decide
    · simp [h1, h2] at h

/-- Witness of C9: the example deployment, a request carrying `X-Forwarded-For`. -/
theorem GetClientIP_priority_witness :
    demoEnv.parseIP "" = none ∧ GetClientIP demoEnv forwardedReq = some [8, 8, 8, 8]
      ∧ GetClientIP demoEnv forwardedReq = clientIPBySpec demoEnv forwardedReq :=
  ⟨demoEnv_parse_empty, by decide,
    GetClientIP_priority demoEnv forwardedReq demoEnv_parse_empty demoEnv_split_parse⟩

/-- C10: `IsChinaIP` is true for a nil IP, an unloaded database and a failed lookup,
and otherwise true exactly when the ISO code is `CN`; `IsNonChinaRequest` is false
whenever the client IP cannot be parsed or classified. -/
theorem IsChinaIP_fail_closed (env : Env) :
    (∀ ip : Option IP, ip = none ∨ env.geoDB = none → IsChinaIP env ip = true)
    ∧ (∀ (a : IP) (country : IP → Except String String) (e : String),
        env.geoDB = some country → country a = .error e → IsChinaIP env (some a) = true)
    ∧ (∀ (a : IP) (country : IP → Except String String) (iso : String),
        env.geoDB = some country → country a = .ok iso →
          (IsChinaIP env (some a) = true ↔ iso = "CN"))
    ∧ (∀ r : Request,
        (GetClientIP env r = none ∨ env.geoDB = none ∨
          ∃ a country e, GetClientIP env r = some a ∧ env.geoDB = some country ∧
            country a = .error e) →
        IsNonChinaRequest env r = false) := by
  refine ⟨?_, ?_, ?_, ?_⟩
  · intro ip h
    rcases h with h | h
    · subst h; cases hg : env.geoDB <;> simp [IsChinaIP, hg]
    · cases ip <;> simp [IsChinaIP, h]
  · intro a country e hg hc
    simp [IsChinaIP, hg, hc]
  · intro a country iso hg hc
    simp [IsChinaIP, hg, hc]
  · intro r h
    unfold IsNonChinaRequest
    rcases h with h | h | ⟨a, country, e, h1, h2, h3⟩
    · cases hg : env.geoDB <;> simp [IsChinaIP, h, hg]
    · cases hi : GetClientIP env r <;> simp [IsChinaIP, h, hi]
    · simp [IsChinaIP, h1, h2, h3]

/-- Witness of C10: a nil IP, the two classified addresses, and two requests whose
client cannot be classified. -/
theorem IsChinaIP_fail_closed_witness :
    IsChinaIP demoEnv none = true
      ∧ (IsChinaIP demoEnv (some [8, 8, 8, 8]) = true ↔ "US" = "CN")
      ∧ IsChinaIP demoEnv (some [10, 0, 0, 1]) = true
      ∧ IsNonChinaRequest demoEnv unknownPeerReq = false
      ∧ IsNonChinaRequest demoEnv lookupFailReq = false :=
  ⟨(IsChinaIP_fail_closed demoEnv).1 none (Or.inl rfl),
    (IsChinaIP_fail_closed demoEnv).2.2.1 [8, 8, 8, 8] _ "US" rfl rfl,
    (IsChinaIP_fail_closed demoEnv).2.1 [10, 0, 0, 1] _ "lookup failed" rfl rfl,
    (IsChinaIP_fail_closed demoEnv).2.2.2 unknownPeerReq (Or.inl (by decide)),
    (IsChinaIP_fail_closed demoEnv).2.2.2 lookupFailReq
      (Or.inr (Or.inr ⟨[10, 0, 0, 1], _, "lookup failed", by decide, rfl, rfl⟩))⟩

/-! ## Header maps -/

theorem rawGet_rawSet_self (h : Header) (k : String) (v : List String) :
    rawGet (rawSet h k v) k = v := by
  induction h with
  | nil => simp [rawSet, rawGet]
  | cons e t ih =>
    obtain ⟨k2, w⟩ := e
    by_cases hk : k2 = k
    · simp [rawSet, rawGet, hk]
    · simp [rawSet, rawGet, hk, ih]

theorem rawGet_rawSet_ne (h : Header) (k k2 : String) (v : List String) (hne : k2 ≠ k) :
    rawGet (rawSet h k v) k2 = rawGet h k2 := by
  induction h with
  | nil => simp [rawSet, rawGet, Ne.symm hne]
  | cons e t ih =>
    obtain ⟨k3, w⟩ := e
    by_cases hk : k3 = k
    · subst hk
      simp [rawSet, rawGet, Ne.symm hne]
    · by_cases hk2 : k3 = k2
      · subst hk2
        simp [rawSet, rawGet, hk]
      · simp [rawSet, rawGet, hk, hk2, ih]

theorem mem_rawSet (h : Header) (k : String) (v : List String) (e : String × List String)
    (he : e ∈ rawSet h k v) : e ∈ h ∨ e = (k, v) := by
  induction h with
  | nil => simp [rawSet] at he; exact Or.inr he
  | cons x t ih =>
    obtain ⟨k3, w⟩ := x
    by_cases hk : k3 = k
    · simp only [rawSet, hk, if_true, List.mem_cons] at he
      rcases he with he | he
      · exact Or.inr he
      · exact Or.inl (List.mem_cons_of_mem _ he)
    · simp only [rawSet, hk, if_false, List.mem_cons] at he
      rcases he with he | he
      · exact Or.inl (he ▸ List.mem_cons_self _ _)
      · rcases ih he with h1 | h1
        · exact Or.inl (List.mem_cons_of_mem _ h1)
        · exact Or.inr h1

theorem canon_allow_origin :
    CanonicalMIMEHeaderKey "Access-Control-Allow-Origin" = "Access-Control-Allow-Origin" := by
  decide

theorem canon_allow_methods :
    CanonicalMIMEHeaderKey "Access-Control-Allow-Methods" = "Access-Control-Allow-Methods" := by
  decide

theorem canon_allow_headers :
    CanonicalMIMEHeaderKey "Access-Control-Allow-Headers" = "Access-Control-Allow-Headers" := by
  decide

theorem canon_expose_headers :
    CanonicalMIMEHeaderKey "Access-Control-Expose-Headers" = "Access-Control-Expose-Headers" := by
  decide

theorem canon_content_type : CanonicalMIMEHeaderKey "Content-Type" = "Content-Type" := by decide

theorem canon_location : CanonicalMIMEHeaderKey "Location" = "Location" := by decide

/-- After `setCORSHeaders` the four CORS headers carry the fixed values, whatever the
header map held before. -/
theorem setCORSHeaders_fixed (w : ResponseWriter) : CorsFixed (setCORSHeaders w).header := by
  unfold setCORSHeaders CorsFixed Header.Set
  simp only [canon_allow_origin, canon_allow_methods, canon_allow_headers, canon_expose_headers]
  refine ⟨?_, ?_, ?_, ?_⟩
  · rw [rawGet_rawSet_ne _ _ _ _ (by decide), rawGet_rawSet_ne _ _ _ _ (by decide),
      rawGet_rawSet_ne _ _ _ _ (by decide), rawGet_rawSet_self]
  · rw [rawGet_rawSet_ne _ _ _ _ (by decide), rawGet_rawSet_ne _ _ _ _ (by decide),
      rawGet_rawSet_self]
  · rw [rawGet_rawSet_ne _ _ _ _ (by decide), rawGet_rawSet_self]
  · rw [rawGet_rawSet_self]

theorem CorsFixed_set_content_type (h : Header) (v : String) (hc : CorsFixed h) :
    CorsFixed (h.Set "Content-Type" v) := by
  unfold CorsFixed Header.Set at *
  simp only [canon_content_type]
  rw [rawGet_rawSet_ne _ _ _ _ (by decide), rawGet_rawSet_ne _ _ _ _ (by decide),
    rawGet_rawSet_ne _ _ _ _ (by decide), rawGet_rawSet_ne _ _ _ _ (by decide)]
  exact hc

theorem CorsFixed_set_location (h : Header) (v : String) (hc : CorsFixed h) :
    CorsFixed (h.Set "Location" v) := by
  unfold CorsFixed Header.Set at *
  simp only [canon_location]
  rw [rawGet_rawSet_ne _ _ _ _ (by decide), rawGet_rawSet_ne _ _ _ _ (by decide),
    rawGet_rawSet_ne _ _ _ _ (by decide), rawGet_rawSet_ne _ _ _ _ (by decide)]
  exact hc

/-! ## The response writer -/

theorem AtEveryStatus_WriteHeader (P : Header → Prop) (w w2 : ResponseWriter) (code : Int)
    (hw : AtEveryStatus P w) (h : WriteHeader w code = .ok w2) : AtEveryStatus P w2 := by
  obtain ⟨h1, h2, h3⟩ := hw
  unfold WriteHeader at h
  split_ifs at h with c1 c2 c3
  · cases h; exact ⟨h1, h2, h3⟩
  · cases h
    refine ⟨h1, h2, ?_⟩
    intro e he
    simp only [List.mem_append, List.mem_singleton] at he
    rcases he with he | he
    · exact h3 e he
    · subst he; exact h1
  · cases h
    refine ⟨h1, ?_, h3⟩
    intro c h0 hs
    simp only [Option.some.injEq, Prod.mk.injEq] at hs
    exact hs.2 ▸ h1

theorem AtEveryStatus_Write (P : Header → Prop) (w : ResponseWriter) (c : Chunk)
    (hw : AtEveryStatus P w) : AtEveryStatus P (Write w c) := by
  obtain ⟨h1, h2, h3⟩ := hw
  have key : AtEveryStatus P
      (if w.status.isSome then w else { w with status := some (200, w.header) }) := by
    by_cases hs : w.status.isSome
    · rw [if_pos hs]; exact ⟨h1, h2, h3⟩
    · rw [if_neg hs]
      refine ⟨h1, ?_, h3⟩
      intro c h0 hs2
      simp only [Option.some.injEq, Prod.mk.injEq] at hs2
      exact hs2.2 ▸ h1
  unfold Write
  simp only []
  generalize (if w.status.isSome then w else { w with status := some (200, w.header) }) = w1
    at key ⊢
  split
  · exact key
  · split_ifs
    · exact key
    · exact key

theorem AtEveryStatus_endWithStatus (P : Header → Prop) (w : ResponseWriter) (code : Int)
    (ev : List Event) (hw : AtEveryStatus P w) : AtEveryStatus P (endWithStatus w code ev).w := by
  unfold endWithStatus
  cases h : WriteHeader w code with
  | error e => exact hw
  | ok w2 => exact AtEveryStatus_WriteHeader P w w2 code hw h

theorem AtEveryStatus_endWithError (P : Header → Prop) (w : ResponseWriter) (code : Int)
    (msg : String) (ev : List Event) (hw : AtEveryStatus P w)
    (hP : P (w.header.Set "Content-Type" "application/json; charset=utf-8")) :
    AtEveryStatus P (endWithError w code msg ev).w := by
  have hw1 : AtEveryStatus P
      { w with header := w.header.Set "Content-Type" "application/json; charset=utf-8" } :=
    ⟨hP, hw.2.1, hw.2.2⟩
  show AtEveryStatus P (errorResponse w code msg).1
  cases h : WriteHeader
      { w with header := w.header.Set "Content-Type" "application/json; charset=utf-8" } code with
  | error e => simp only [errorResponse, h]; exact hw1
  | ok w2 =>
    simp only [errorResponse, h]
    exact AtEveryStatus_Write P w2 _ (AtEveryStatus_WriteHeader P _ w2 code hw1 h)

/-! ## Every path of `downHandle` -/

theorem AtEveryStatus_fresh (P : Header → Prop) (h : Header) (hb : Bool) (hP : P h) :
    AtEveryStatus P ⟨h, none, [], [], hb⟩ := by
  refine ⟨hP, ?_, ?_⟩
  · intro c h2 hs; cases hs
  · intro e he; cases he

theorem setCORSHeaders_fresh (hb : Bool) :
    setCORSHeaders ⟨[], none, [], [], hb⟩ = ⟨corsHeaders, none, [], [], hb⟩ := by
  cases hb <;> decide

theorem AtEveryStatus_proxyTo (P : Header → Prop) (env : Env) (r : Request) (h : Header)
    (hb : Bool) (resp : LinkResp) (url : String) (ev : List Event)
    (hct : P (h.Set "Content-Type" "application/json; charset=utf-8"))
    (hrel : ∀ up, P (setCORSHeaders ⟨relayHeaders env.foldOrbit h up, none, [], [], hb⟩).header)
    (hP : P h) :
    AtEveryStatus P (proxyTo env r ⟨h, none, [], [], hb⟩ resp url ev).w := by
  have hw := AtEveryStatus_fresh P h hb hP
  unfold proxyTo
  cases hn : env.newRequestErr r.Method url with
  | some e => exact AtEveryStatus_endWithError P _ 500 e ev hw hct
  | none =>
    simp only []
    cases hr : env.roundTrip
        ⟨r.Method, url, delHopByHop (mergeHeaders r.Header resp.Data.Header)⟩ with
    | error e => exact AtEveryStatus_endWithError P _ 502 e _ hw hct
    | ok upRes =>
      simp only []
      have hw1 : AtEveryStatus P
          (setCORSHeaders ⟨relayHeaders env.foldOrbit h upRes.Header, none, [], [], hb⟩) :=
        AtEveryStatus_fresh P _ hb (hrel upRes.Header)
      cases hwh : WriteHeader
          (setCORSHeaders ⟨relayHeaders env.foldOrbit h upRes.Header, none, [], [], hb⟩)
          upRes.StatusCode with
      | error e => exact hw1
      | ok w2 =>
        have hw2 := AtEveryStatus_WriteHeader P _ w2 _ hw1 hwh
        simp only []
        split_ifs
        · exact hw2
        · exact hw2
        · exact AtEveryStatus_Write P w2 _ hw2

theorem AtEveryStatus_afterGate (P : Header → Prop) (env : Env) (r : Request) (h : Header)
    (hb : Bool) (ev : List Event)
    (hct : P (h.Set "Content-Type" "application/json; charset=utf-8"))
    (hloc : ∀ v, P (h.Set "Location" v))
    (hrel : ∀ up, P (setCORSHeaders ⟨relayHeaders env.foldOrbit h up, none, [], [], hb⟩).header)
    (hP : P h) :
    AtEveryStatus P (afterGate env r ⟨h, none, [], [], hb⟩ ev).w := by
  have hw := AtEveryStatus_fresh P h hb hP
  unfold afterGate
  simp only []
  cases hl : env.linkService r.Path with
  | error e => exact AtEveryStatus_endWithError P _ 502 e _ hw hct
  | ok resp =>
    simp only []
    by_cases hc : resp.Code ≠ 200
    · rw [if_pos hc]
      exact AtEveryStatus_endWithError P _ _ _ _ hw hct
    · rw [if_neg hc]
      by_cases hd : (isDirectUA env.lowerTable (getClientUA r) || IsNonChinaRequest env r) = true
      · rw [if_pos hd]
        exact AtEveryStatus_endWithStatus P _ 302 _ (AtEveryStatus_fresh P _ hb (hloc _))
      · rw [if_neg hd]
        exact AtEveryStatus_proxyTo P env r h hb resp _ _ hct hrel hP

/-- A property of header maps that holds after `setCORSHeaders`, survives setting
`Content-Type` or `Location`, and holds after the response copy loop followed by
`setCORSHeaders`, holds at every status line of every run of `downHandle`. -/
theorem AtEveryStatus_downHandle (P : Header → Prop) (env : Env) (r : Request)
    (h0 : P corsHeaders)
    (hct : P (corsHeaders.Set "Content-Type" "application/json; charset=utf-8"))
    (hloc : ∀ v, P (corsHeaders.Set "Location" v))
    (hrel : ∀ up hb, P (setCORSHeaders
      ⟨relayHeaders env.foldOrbit corsHeaders up, none, [], [], hb⟩).header) :
    AtEveryStatus P (downHandle env r).w := by
  have hw : AtEveryStatus P (setCORSHeaders ⟨[], none, [], [], decide (r.Method = "HEAD")⟩) := by
    rw [setCORSHeaders_fresh]; exact AtEveryStatus_fresh P _ _ h0
  have hw2 : AtEveryStatus P
      (⟨corsHeaders, none, [], [], decide (r.Method = "HEAD")⟩ : ResponseWriter) :=
    AtEveryStatus_fresh P _ _ h0
  unfold downHandle
  simp only []
  by_cases hopt : r.Method = "OPTIONS"
  · rw [if_pos hopt]
    exact AtEveryStatus_endWithStatus P _ 204 [] hw
  · rw [if_neg hopt]
    by_cases hmeth : r.Method ≠ "GET" ∧ r.Method ≠ "HEAD"
    · rw [if_pos hmeth, setCORSHeaders_fresh]
      exact AtEveryStatus_endWithError P _ 405 _ [] hw2 hct
    · rw [if_neg hmeth]
      by_cases hds : env.disableSign = true
      · rw [if_pos hds, setCORSHeaders_fresh]
        exact AtEveryStatus_afterGate P env r _ _ _ hct hloc (fun up => hrel up _) h0
      · rw [if_neg hds]
        cases hv : env.verify r.Path (Values.Get r.Query "sign") with
        | some e =>
          simp only []
          rw [setCORSHeaders_fresh]
          exact AtEveryStatus_endWithError P _ 401 e _ hw2 hct
        | none =>
          simp only []
          rw [setCORSHeaders_fresh]
          exact AtEveryStatus_afterGate P env r _ _ _ hct hloc (fun up => hrel up _) h0

/-! ## The response copy loop -/

theorem equalFoldList_refl (orbit : Char → Char → Bool) (s : List Char) :
    equalFoldList orbit s s = true := by
  induction s with
  | nil => rfl
  | cons c cs ih => simp [equalFoldList, equalFoldRune, ih]

theorem EqualFold_refl (orbit : Char → Char → Bool) (s : String) : EqualFold orbit s s = true :=
  equalFoldList_refl orbit s.data

theorem skipped_ascii (n : String) (hn : n ∈ skippedResponseHeaders) :
    ∀ b ∈ n.data, b.toNat < 128 := by
  simp only [skippedResponseHeaders, List.mem_cons, List.mem_singleton, List.not_mem_nil,
    or_false] at hn
  rcases hn with h | h | h | h | h <;> subst h <;> decide

/-- A name the copy loop does not skip does not canonicalise to a skipped name. -/
theorem canonical_not_skipped (orbit : Char → Char → Bool) (k n : String)
    (hn : n ∈ skippedResponseHeaders) (hk : EqualFold orbit k n = false) :
    CanonicalMIMEHeaderKey k ≠ n := by
  intro h
  have h1 := EqualFold_canonical orbit k n (skipped_ascii n hn)
  rw [h, EqualFold_refl, hk] at h1
  cases h1

theorem rawGet_addAll_self (k : String) (vv : List String) :
    ∀ m : Header, rawGet (vv.foldl (fun m2 v => m2.Add k v) m) (CanonicalMIMEHeaderKey k)
      = rawGet m (CanonicalMIMEHeaderKey k) ++ vv := by
  induction vv with
  | nil => intro m; simp
  | cons v vs ih =>
    intro m
    simp only [List.foldl_cons]
    rw [ih]
    simp [Header.Add, rawGet_rawSet_self]

theorem rawGet_addAll_ne (k k2 : String) (vv : List String) (hne : k2 ≠ CanonicalMIMEHeaderKey k) :
    ∀ m : Header, rawGet (vv.foldl (fun m2 v => m2.Add k v) m) k2 = rawGet m k2 := by
  induction vv with
  | nil => intro m; rfl
  | cons v vs ih =>
    intro m
    simp only [List.foldl_cons]
    rw [ih]
    simp [Header.Add, rawGet_rawSet_ne _ _ _ _ hne]

theorem mem_addAll (k : String) (vv : List String) :
    ∀ (m : Header) (e : String × List String),
      e ∈ vv.foldl (fun m2 v => m2.Add k v) m → e ∈ m ∨ e.1 = CanonicalMIMEHeaderKey k := by
  induction vv with
  | nil => intro m e he; exact Or.inl he
  | cons v vs ih =>
    intro m e he
    simp only [List.foldl_cons] at he
    rcases ih _ e he with h | h
    · rcases mem_rawSet _ _ _ _ h with h2 | h2
      · exact Or.inl h2
      · exact Or.inr (by rw [h2])
    · exact Or.inr h

/-- One round of the copy loop. -/
theorem relayHeaders_cons (orbit : Char → Char → Bool) (h : Header) (x : String × List String)
    (up : Header) :
    relayHeaders orbit h (x :: up) =
      relayHeaders orbit
        (if skippedResponseHeaders.any (fun n => EqualFold orbit x.1 n) then h
          else x.2.foldl (fun m2 v => m2.Add x.1 v) h) up := rfl

theorem rawGet_relay_mono (orbit : Char → Char → Bool) (up : Header) :
    ∀ (h : Header) (key : String), List.Sublist (rawGet h key) (rawGet (relayHeaders orbit h up) key) := by
  induction up with
  | nil => intro h key; exact List.Sublist.refl _
  | cons x xs ih =>
    intro h key
    rw [relayHeaders_cons]
    refine List.Sublist.trans ?_ (ih _ key)
    split_ifs
    · exact List.Sublist.refl _
    · by_cases hk : key = CanonicalMIMEHeaderKey x.1
      · subst hk
        rw [rawGet_addAll_self]
        exact List.sublist_append_left _ _
      · rw [rawGet_addAll_ne _ _ _ hk]

/-- Every upstream header the copy loop does not skip arrives under its canonical
name with all of its values, in order. -/
theorem relayHeaders_values (orbit : Char → Char → Bool) (up : Header) :
    ∀ (h : Header) (e : String × List String), e ∈ up →
      skippedResponseHeaders.any (fun n => EqualFold orbit e.1 n) = false →
      List.Sublist e.2 (rawGet (relayHeaders orbit h up) (CanonicalMIMEHeaderKey e.1)) := by
  induction up with
  | nil => intro h e he; cases he
  | cons x xs ih =>
    intro h e he hs
    rw [relayHeaders_cons]
    rcases List.mem_cons.1 he with hx | hx
    · subst hx
      rw [hs]
      simp only [Bool.false_eq_true, if_false]
      refine List.Sublist.trans ?_ (rawGet_relay_mono orbit xs _ _)
      rw [rawGet_addAll_self]
      exact List.sublist_append_right _ _
    · exact ih _ e hx hs

theorem mem_relayHeaders (orbit : Char → Char → Bool) (up : Header) :
    ∀ (h : Header) (e : String × List String), e ∈ relayHeaders orbit h up →
      e ∈ h ∨ ∃ x ∈ up, skippedResponseHeaders.any (fun n => EqualFold orbit x.1 n) = false
        ∧ e.1 = CanonicalMIMEHeaderKey x.1 := by
  induction up with
  | nil => intro h e he; exact Or.inl he
  | cons x xs ih =>
    intro h e he
    rw [relayHeaders_cons] at he
    rcases ih _ e he with h1 | ⟨y, hy, hs, hk⟩
    · by_cases hsk : skippedResponseHeaders.any (fun n => EqualFold orbit x.1 n) = true
      · rw [if_pos hsk] at h1; exact Or.inl h1
      · rw [if_neg hsk] at h1
        rcases mem_addAll _ _ _ _ h1 with h2 | h2
        · exact Or.inl h2
        · exact Or.inr ⟨x, List.mem_cons_self _ _, by simpa using hsk, h2⟩
    · exact Or.inr ⟨y, List.mem_cons_of_mem _ hy, hs, hk⟩

theorem mem_setCORSHeaders (w : ResponseWriter) (e : String × List String)
    (he : e ∈ (setCORSHeaders w).header) :
    e ∈ w.header ∨ e.1 ∈ ["Access-Control-Allow-Origin", "Access-Control-Allow-Methods",
      "Access-Control-Allow-Headers", "Access-Control-Expose-Headers"] := by
  unfold setCORSHeaders Header.Set at he
  simp only [canon_allow_origin, canon_allow_methods, canon_allow_headers,
    canon_expose_headers] at he
  rcases mem_rawSet _ _ _ _ he with h4 | h4
  · rcases mem_rawSet _ _ _ _ h4 with h3 | h3
    · rcases mem_rawSet _ _ _ _ h3 with h2 | h2
      · rcases mem_rawSet _ _ _ _ h2 with h1 | h1
        · exact Or.inl h1
        · exact Or.inr (by rw [h1]; decide)
      · exact Or.inr (by rw [h2]; decide)
    · exact Or.inr (by rw [h3]; decide)
  · exact Or.inr (by rw [h4]; decide)

theorem rawGet_setCORSHeaders_other (w : ResponseWriter) (key : String)
    (hk : key ∉ skippedResponseHeaders) :
    rawGet (setCORSHeaders w).header key = rawGet w.header key := by
  simp only [skippedResponseHeaders, List.mem_cons, List.mem_singleton, List.not_mem_nil,
    or_false, not_or] at hk
  obtain ⟨_, h1, h2, h3, h4⟩ := hk
  unfold setCORSHeaders Header.Set
  simp only [canon_allow_origin, canon_allow_methods, canon_allow_headers, canon_expose_headers]
  rw [rawGet_rawSet_ne _ _ _ _ h4, rawGet_rawSet_ne _ _ _ _ h3, rawGet_rawSet_ne _ _ _ _ h2,
    rawGet_rawSet_ne _ _ _ _ h1]

/-! ## Which path made an outbound fetch -/

theorem endWithError_events (w : ResponseWriter) (code : Int) (msg : String) (ev : List Event) :
    (endWithError w code msg ev).events = ev := rfl

theorem endWithStatus_events (w : ResponseWriter) (code : Int) (ev : List Event) :
    (endWithStatus w code ev).events = ev := by
  unfold endWithStatus
  cases WriteHeader w code <;> rfl

/-- A run of `afterGate` that fetched is a run of the proxy branch. -/
theorem afterGate_fetch_inv (env : Env) (r : Request) (w : ResponseWriter) (ev : List Event)
    (q : UpstreamRequest) (hev : ∀ q2, Event.fetch q2 ∉ ev)
    (hf : Event.fetch q ∈ (afterGate env r w ev).events) :
    ∃ resp, env.linkService r.Path = .ok resp ∧ resp.Code = 200
      ∧ (isDirectUA env.lowerTable (getClientUA r) || IsNonChinaRequest env r) = false
      ∧ afterGate env r w ev
          = proxyTo env r w resp (fixScheme resp.Data.Url) (ev ++ [Event.resolve r.Path]) := by
  have hev2 : Event.fetch q ∉ ev ++ [Event.resolve r.Path] := by
    simp only [List.mem_append, List.mem_singleton, not_or]
    exact ⟨hev q, fun h => by cases h⟩
  unfold afterGate at hf ⊢
  simp only [] at hf ⊢
  cases hl : env.linkService r.Path with
  | error e =>
    rw [hl] at hf
    exact absurd hf hev2
  | ok resp =>
    rw [hl] at hf
    simp only [] at hf ⊢
    by_cases hc : resp.Code ≠ 200
    · rw [if_pos hc] at hf
      exact absurd hf hev2
    · rw [if_neg hc] at hf
      by_cases hd : (isDirectUA env.lowerTable (getClientUA r) || IsNonChinaRequest env r) = true
      · rw [if_pos hd, endWithStatus_events] at hf
        exact absurd hf hev2
      · refine ⟨resp, rfl, not_not.1 hc, by simpa using hd, ?_⟩
        rw [if_neg hc, if_neg hd]

/-- A run of `downHandle` that fetched is a run of the proxy branch, entered with the
CORS headers set and with events that hold no fetch yet. -/
theorem downHandle_fetch_inv (env : Env) (r : Request) (q : UpstreamRequest)
    (hf : Event.fetch q ∈ (downHandle env r).events) :
    ∃ resp ev, (∀ q2, Event.fetch q2 ∉ ev)
      ∧ downHandle env r
          = proxyTo env r ⟨corsHeaders, none, [], [], decide (r.Method = "HEAD")⟩ resp
              (fixScheme resp.Data.Url) ev := by
  unfold downHandle at hf ⊢
  simp only [] at hf ⊢
  by_cases hopt : r.Method = "OPTIONS"
  · rw [if_pos hopt, endWithStatus_events] at hf
    cases hf
  · rw [if_neg hopt] at hf ⊢
    by_cases hmeth : r.Method ≠ "GET" ∧ r.Method ≠ "HEAD"
    · rw [if_pos hmeth] at hf
      cases hf
    · rw [if_neg hmeth] at hf ⊢
      by_cases hds : env.disableSign = true
      · rw [if_pos hds] at hf ⊢
        have hev : ∀ q2, Event.fetch q2 ∉ ([] : List Event) := fun _ h => by cases h
        obtain ⟨resp, _, _, _, heq⟩ := afterGate_fetch_inv env r _ [] q hev hf
        exact ⟨resp, _, by simp, heq⟩
      · rw [if_neg hds] at hf ⊢
        cases hv : env.verify r.Path (Values.Get r.Query "sign") with
        | some e =>
          rw [hv] at hf
          simp [endWithError_events] at hf
        | none =>
          rw [hv] at hf
          simp only [] at hf ⊢
          have hev : ∀ q2, Event.fetch q2 ∉ [Event.verify r.Path (Values.Get r.Query "sign")] :=
            fun _ h => by simp at h
          obtain ⟨resp, _, _, _, heq⟩ := afterGate_fetch_inv env r _ _ q hev hf
          exact ⟨resp, _, by simp, heq⟩

/-- In a run of the proxy branch that fetched `q` and got `upRes`, `q` is the request
the branch built, and the headers at every status line are the copied upstream
headers followed by `setCORSHeaders`. -/
theorem proxyTo_fetch (env : Env) (r : Request) (h : Header) (hb : Bool) (resp : LinkResp)
    (url : String)
    (ev : List Event) (q : UpstreamRequest) (upRes : UpstreamResponse)
    (hev : ∀ q2, Event.fetch q2 ∉ ev)
    (hf : Event.fetch q ∈ (proxyTo env r ⟨h, none, [], [], hb⟩ resp url ev).events)
    (hr : env.roundTrip q = .ok upRes) :
    q = ⟨r.Method, url, delHopByHop (mergeHeaders r.Header resp.Data.Header)⟩
      ∧ AtEveryStatus
          (fun x => x = (setCORSHeaders
            ⟨relayHeaders env.foldOrbit h upRes.Header, none, [], [], hb⟩).header)
          (proxyTo env r ⟨h, none, [], [], hb⟩ resp url ev).w := by
  unfold proxyTo at hf ⊢
  cases hn : env.newRequestErr r.Method url with
  | some e =>
    rw [hn] at hf
    exact absurd hf (hev q)
  | none =>
    rw [hn] at hf
    simp only [] at hf ⊢
    have hq : q = ⟨r.Method, url, delHopByHop (mergeHeaders r.Header resp.Data.Header)⟩ := by
      cases hr2 : env.roundTrip
          ⟨r.Method, url, delHopByHop (mergeHeaders r.Header resp.Data.Header)⟩ with
      | error e =>
        rw [hr2] at hf
        simp only [endWithError_events, List.mem_append, List.mem_singleton] at hf
        rcases hf with hf | hf
        · exact absurd hf (hev q)
        · exact Event.fetch.inj hf
      | ok u =>
        rw [hr2] at hf
        simp only [] at hf
        have hf2 : Event.fetch q ∈ ev ++ [Event.fetch
            ⟨r.Method, url, delHopByHop (mergeHeaders r.Header resp.Data.Header)⟩] := by
          split at hf
          · exact hf
          · split_ifs at hf <;> exact hf
        simp only [List.mem_append, List.mem_singleton] at hf2
        rcases hf2 with hf2 | hf2
        · exact absurd hf2 (hev q)
        · exact Event.fetch.inj hf2
    refine ⟨hq, ?_⟩
    rw [← hq, hr]
    simp only []
    have hw1 : AtEveryStatus
        (fun x => x = (setCORSHeaders
          ⟨relayHeaders env.foldOrbit h upRes.Header, none, [], [], hb⟩).header)
        (setCORSHeaders ⟨relayHeaders env.foldOrbit h upRes.Header, none, [], [], hb⟩) :=
      AtEveryStatus_fresh _ _ hb rfl
    cases hwh : WriteHeader
        (setCORSHeaders ⟨relayHeaders env.foldOrbit h upRes.Header, none, [], [], hb⟩)
        upRes.StatusCode with
    | error e => exact hw1
    | ok w2 =>
      have hw2 := AtEveryStatus_WriteHeader _ _ w2 _ hw1 hwh
      simp only []
      split_ifs
      · exact hw2
      · exact hw2
      · exact AtEveryStatus_Write _ w2 _ hw2

/-! ## Claim C5: the response headers of the proxy path -/

theorem fold_cors_not_cookie (orbit : Char → Char → Bool) (n : String)
    (hn : n ∈ ["Access-Control-Allow-Origin", "Access-Control-Allow-Methods",
      "Access-Control-Allow-Headers", "Access-Control-Expose-Headers"]) :
    EqualFold orbit n "Set-Cookie" = false := by
  simp only [List.mem_cons, List.mem_singleton, List.not_mem_nil, or_false] at hn
  rcases hn with h | h | h | h <;> subst h <;> rfl

theorem noCookie_setCORSHeaders (orbit : Char → Char → Bool) (w : ResponseWriter)
    (hw : ∀ e ∈ w.header, EqualFold orbit e.1 "Set-Cookie" = false) :
    ∀ e ∈ (setCORSHeaders w).header, EqualFold orbit e.1 "Set-Cookie" = false := by
  intro e he
  rcases mem_setCORSHeaders w e he with h | h
  · exact hw e h
  · exact fold_cors_not_cookie orbit e.1 h

theorem noCookie_relayHeaders (orbit : Char → Char → Bool) (h up : Header)
    (hh : ∀ e ∈ h, EqualFold orbit e.1 "Set-Cookie" = false) :
    ∀ e ∈ relayHeaders orbit h up, EqualFold orbit e.1 "Set-Cookie" = false := by
  intro e he
  rcases mem_relayHeaders orbit up h e he with h1 | ⟨x, _, hs, hk⟩
  · exact hh e h1
  · rw [hk, EqualFold_canonical orbit x.1 "Set-Cookie" (by decide)]
    have hs2 := hs
    simp only [skippedResponseHeaders, List.any_cons, Bool.or_eq_false_iff] at hs2
    exact hs2.1

/-- C5: no header of the response `downHandle` leaves, or had at a status line, folds
to `Set-Cookie`; and when the run fetched a request and the client returned `upRes`,
every header of `upRes` that folds to none of `Set-Cookie` and the four CORS names is
present under its canonical name with all of its values. -/
theorem set_cookie_never_relayed (env : Env) (r : Request) :
    AtEveryStatus (fun h => ∀ e ∈ h, EqualFold env.foldOrbit e.1 "Set-Cookie" = false)
        (downHandle env r).w
    ∧ ∀ (q : UpstreamRequest) (upRes : UpstreamResponse),
        Event.fetch q ∈ (downHandle env r).events → env.roundTrip q = .ok upRes →
        ∀ e ∈ upRes.Header,
          (∀ n ∈ skippedResponseHeaders, EqualFold env.foldOrbit e.1 n = false) →
          AtEveryStatus (fun h => List.Sublist e.2 (rawGet h (CanonicalMIMEHeaderKey e.1)))
            (downHandle env r).w := by
  have h0 : ∀ e ∈ corsHeaders, EqualFold env.foldOrbit e.1 "Set-Cookie" = false := by
    have h := noCookie_setCORSHeaders env.foldOrbit ⟨[], none, [], [], false⟩
      (fun _ he => by cases he)
    rw [setCORSHeaders_fresh] at h
    exact h
  refine ⟨?_, ?_⟩
  · refine AtEveryStatus_downHandle _ env r h0 ?_ ?_ ?_
    · intro e he
      rcases mem_rawSet _ _ _ _ he with h | h
      · exact h0 e h
      · rw [h]; rfl
    · intro v e he
      rcases mem_rawSet _ _ _ _ he with h | h
      · exact h0 e h
      · rw [h]; rfl
    · intro up hb
      exact noCookie_setCORSHeaders env.foldOrbit _ (noCookie_relayHeaders env.foldOrbit _ up h0)
  · intro q upRes hf hr e he hskip
    obtain ⟨resp, ev, hev, heq⟩ := downHandle_fetch_inv env r q hf
    rw [heq] at hf ⊢
    obtain ⟨_, hall⟩ := proxyTo_fetch env r _ _ resp _ ev q upRes hev hf hr
    have hany : skippedResponseHeaders.any (fun n => EqualFold env.foldOrbit e.1 n) = false := by
      rw [List.any_eq_false]
      intro n hn
      simp [hskip n hn]
    have hkey : CanonicalMIMEHeaderKey e.1 ∉ skippedResponseHeaders := fun hmem =>
      canonical_not_skipped env.foldOrbit e.1 _ hmem (hskip _ hmem) rfl
    have hval : List.Sublist e.2
        (rawGet (setCORSHeaders ⟨relayHeaders env.foldOrbit corsHeaders upRes.Header,
          none, [], [], decide (r.Method = "HEAD")⟩).header
          (CanonicalMIMEHeaderKey e.1)) := by
      rw [rawGet_setCORSHeaders_other _ _ hkey]
      exact relayHeaders_values env.foldOrbit upRes.Header _ e he hany
    obtain ⟨a1, a2, a3⟩ := hall
    refine ⟨?_, ?_, ?_⟩
    · rw [a1]; exact hval
    · intro c h hs; rw [a2 c h hs]; exact hval
    · intro x hx; rw [a3 x hx]; exact hval

/-- Witness of C5: the example deployment relays `Content-Range` and drops the
upstream `Set-Cookie`. -/
theorem set_cookie_never_relayed_witness :
    Event.fetch demoUpReq ∈ (downHandle demoEnv demoReq).events
      ∧ demoEnv.roundTrip demoUpReq = .ok demoUpRes
      ∧ rawGet (downHandle demoEnv demoReq).w.header "Set-Cookie" = []
      ∧ List.Sublist ["bytes 0-10/100"]
          (rawGet (downHandle demoEnv demoReq).w.header
            (CanonicalMIMEHeaderKey ("Content-Range", ["bytes 0-10/100"]).1)) :=
  ⟨by decide, rfl, by decide,
    ((set_cookie_never_relayed demoEnv demoReq).2 demoUpReq demoUpRes (by decide) rfl
      ("Content-Range", ["bytes 0-10/100"]) (by decide) (by decide)).1⟩

/-! ## No CORS header under another spelling -/

theorem keys_rawSet (h : Header) (k : String) (v : List String) (x : String)
    (hx : x ∈ (rawSet h k v).map Prod.fst) : x ∈ h.map Prod.fst ∨ x = k := by
  rw [List.mem_map] at hx
  obtain ⟨e, he, hex⟩ := hx
  rcases mem_rawSet h k v e he with h1 | h1
  · exact Or.inl (List.mem_map.2 ⟨e, h1, hex⟩)
  · rw [h1] at hex; exact Or.inr hex.symm

theorem nodup_rawSet (h : Header) (k : String) (v : List String)
    (hn : (h.map Prod.fst).Nodup) : ((rawSet h k v).map Prod.fst).Nodup := by
  induction h with
  | nil => simp [rawSet]
  | cons x t ih =>
    obtain ⟨k3, w⟩ := x
    simp only [List.map_cons, List.nodup_cons] at hn
    by_cases hk : k3 = k
    · subst hk
      simp only [rawSet, if_true, List.map_cons, List.nodup_cons]
      exact hn
    · simp only [rawSet, hk, if_false, List.map_cons, List.nodup_cons]
      refine ⟨?_, ih hn.2⟩
      intro hmem
      rcases keys_rawSet t k v k3 hmem with h1 | h1
      · exact hn.1 h1
      · exact hk h1

theorem rawGet_of_mem (h : Header) (hn : (h.map Prod.fst).Nodup) (e : String × List String)
    (he : e ∈ h) : rawGet h e.1 = e.2 := by
  induction h with
  | nil => cases he
  | cons x t ih =>
    obtain ⟨k3, w⟩ := x
    simp only [List.map_cons, List.nodup_cons] at hn
    rcases List.mem_cons.1 he with h1 | h1
    · subst h1; simp [rawGet]
    · have hne : k3 ≠ e.1 := by
        intro hk
        exact hn.1 (hk ▸ List.mem_map.2 ⟨e, h1, rfl⟩)
      simp only [rawGet, hne, if_false]
      exact ih hn.2 h1

/-- The invariant behind `CorsOnly`: the fixed values, no name twice, and every name
that folds to a CORS name is that name. -/
theorem corsOnly_of_invariant (orbit : Char → Char → Bool) (h : Header) (hc : CorsFixed h)
    (hn : (h.map Prod.fst).Nodup)
    (hf : ∀ e ∈ h, ∀ c ∈ corsTable, EqualFold orbit e.1 c.1 = true → e.1 = c.1) :
    CorsOnly orbit h := by
  intro e he c hcm hfold
  have h1 := hf e he c hcm hfold
  have h2 := rawGet_of_mem h hn e he
  have h3 : rawGet h c.1 = [c.2] := by
    obtain ⟨a1, a2, a3, a4⟩ := hc
    simp only [corsTable, List.mem_cons, List.mem_singleton, List.not_mem_nil, or_false] at hcm
    rcases hcm with h | h | h | h <;> subst h
    · exact a1
    · exact a2
    · exact a3
    · exact a4
  rw [h1, h3] at h2
  exact Prod.ext h1 h2.symm

theorem cors_names_fold (orbit : Char → Char → Bool) (c d : String × String)
    (hc : c ∈ corsTable) (hd : d ∈ corsTable) (h : EqualFold orbit c.1 d.1 = true) :
    c.1 = d.1 := by
  simp only [corsTable, List.mem_cons, List.mem_singleton, List.not_mem_nil, or_false] at hc hd
  rcases hc with hc | hc | hc | hc <;> rcases hd with hd | hd | hd | hd <;> subst hc <;>
    subst hd <;> first | rfl | exact absurd (show false = true from h) (by decide)

theorem content_type_folds_no_cors (orbit : Char → Char → Bool) (c : String × String)
    (hc : c ∈ corsTable) : EqualFold orbit "Content-Type" c.1 = false := by
  simp only [corsTable, List.mem_cons, List.mem_singleton, List.not_mem_nil, or_false] at hc
  rcases hc with hc | hc | hc | hc <;> subst hc <;> rfl

theorem location_folds_no_cors (orbit : Char → Char → Bool) (c : String × String)
    (hc : c ∈ corsTable) : EqualFold orbit "Location" c.1 = false := by
  simp only [corsTable, List.mem_cons, List.mem_singleton, List.not_mem_nil, or_false] at hc
  rcases hc with hc | hc | hc | hc <;> subst hc <;> rfl

theorem cors_in_skipped (c : String × String) (hc : c ∈ corsTable) :
    c.1 ∈ skippedResponseHeaders := by
  simp only [corsTable, List.mem_cons, List.mem_singleton, List.not_mem_nil, or_false] at hc
  rcases hc with hc | hc | hc | hc <;> subst hc <;> decide

theorem KeysClean_rawSet (orbit : Char → Char → Bool) (h : Header) (k : String)
    (v : List String) (hk : KeysClean orbit h)
    (hf : ∀ c ∈ corsTable, EqualFold orbit k c.1 = true → k = c.1) :
    KeysClean orbit (rawSet h k v) := by
  refine ⟨nodup_rawSet h k v hk.1, ?_⟩
  intro e he c hc hfold
  rcases mem_rawSet h k v e he with h1 | h1
  · exact hk.2 e h1 c hc hfold
  · rw [h1] at hfold ⊢
    exact hf c hc hfold

theorem KeysClean_setCORSHeaders (orbit : Char → Char → Bool) (w : ResponseWriter)
    (hk : KeysClean orbit w.header) : KeysClean orbit (setCORSHeaders w).header := by
  unfold setCORSHeaders Header.Set
  simp only [canon_allow_origin, canon_allow_methods, canon_allow_headers, canon_expose_headers]
  refine KeysClean_rawSet orbit _ _ _ (KeysClean_rawSet orbit _ _ _ (KeysClean_rawSet orbit _ _ _
    (KeysClean_rawSet orbit _ _ _ hk ?_) ?_) ?_) ?_
  · exact fun c hc h => cors_names_fold orbit ("Access-Control-Allow-Origin", "*") c
      (by decide) hc h
  · exact fun c hc h => cors_names_fold orbit
      ("Access-Control-Allow-Methods", "GET,HEAD,OPTIONS") c (by decide) hc h
  · exact fun c hc h => cors_names_fold orbit
      ("Access-Control-Allow-Headers", "Range,Content-Type,Authorization") c (by decide) hc h
  · exact fun c hc h => cors_names_fold orbit
      ("Access-Control-Expose-Headers", "Content-Length,Content-Range,Accept-Ranges") c
      (by decide) hc h

theorem KeysClean_addAll (orbit : Char → Char → Bool) (k : String) (vv : List String)
    (hf : ∀ c ∈ corsTable, EqualFold orbit (CanonicalMIMEHeaderKey k) c.1 = true →
      CanonicalMIMEHeaderKey k = c.1) :
    ∀ m : Header, KeysClean orbit m → KeysClean orbit (vv.foldl (fun m2 v => m2.Add k v) m) := by
  induction vv with
  | nil => intro m hm; exact hm
  | cons v vs ih =>
    intro m hm
    simp only [List.foldl_cons]
    exact ih _ (KeysClean_rawSet orbit m _ _ hm hf)

theorem KeysClean_relayHeaders (orbit : Char → Char → Bool) (up : Header) :
    ∀ h : Header, KeysClean orbit h → KeysClean orbit (relayHeaders orbit h up) := by
  induction up with
  | nil => intro h hh; exact hh
  | cons x xs ih =>
    intro h hh
    rw [relayHeaders_cons]
    apply ih
    by_cases hs : skippedResponseHeaders.any (fun n => EqualFold orbit x.1 n) = true
    · rw [if_pos hs]; exact hh
    · rw [if_neg hs]
      apply KeysClean_addAll orbit x.1 x.2 _ h hh
      intro c hc hfold
      exfalso
      apply hs
      rw [List.any_eq_true]
      refine ⟨c.1, cors_in_skipped c hc, ?_⟩
      rw [← EqualFold_canonical orbit x.1 c.1 (skipped_ascii c.1 (cors_in_skipped c hc))]
      exact hfold

theorem KeysClean_set_content_type (orbit : Char → Char → Bool) (h : Header) (v : String)
    (hk : KeysClean orbit h) : KeysClean orbit (h.Set "Content-Type" v) := by
  unfold Header.Set
  rw [canon_content_type]
  refine KeysClean_rawSet orbit h _ _ hk ?_
  intro c hc hfold
  rw [content_type_folds_no_cors orbit c hc] at hfold
  cases hfold

theorem KeysClean_set_location (orbit : Char → Char → Bool) (h : Header) (v : String)
    (hk : KeysClean orbit h) : KeysClean orbit (h.Set "Location" v) := by
  unfold Header.Set
  rw [canon_location]
  refine KeysClean_rawSet orbit h _ _ hk ?_
  intro c hc hfold
  rw [location_folds_no_cors orbit c hc] at hfold
  cases hfold

theorem KeysClean_nil (orbit : Char → Char → Bool) : KeysClean orbit [] :=
  ⟨List.nodup_nil, fun _ he => by cases he⟩

/-- C6: at every status line `downHandle` writes, and in the header map it leaves,
each of the four CORS headers carries exactly its one fixed value, and no entry of the
map spells a CORS header name otherwise or holds another value for it; this holds on
the proxy path whatever the upstream response headers were. -/
theorem cors_fixed_on_every_path (env : Env) (r : Request) :
    AtEveryStatus (fun h => CorsFixed h ∧ CorsOnly env.foldOrbit h) (downHandle env r).w := by
  have hk0 : KeysClean env.foldOrbit corsHeaders := by
    have h := KeysClean_setCORSHeaders env.foldOrbit ⟨[], none, [], [], false⟩
      (KeysClean_nil env.foldOrbit)
    rw [setCORSHeaders_fresh] at h
    exact h
  have hc0 : CorsFixed corsHeaders := by
    have h := setCORSHeaders_fixed ⟨[], none, [], [], false⟩
    rw [setCORSHeaders_fresh] at h
    exact h
  have mk : ∀ h : Header, CorsFixed h → KeysClean env.foldOrbit h →
      CorsFixed h ∧ CorsOnly env.foldOrbit h :=
    fun h hc hk => ⟨hc, corsOnly_of_invariant env.foldOrbit h hc hk.1 hk.2⟩
  refine AtEveryStatus_downHandle _ env r (mk _ hc0 hk0) ?_ ?_ ?_
  · exact mk _ (CorsFixed_set_content_type _ _ hc0)
      (KeysClean_set_content_type env.foldOrbit _ _ hk0)
  · intro v
    exact mk _ (CorsFixed_set_location _ v hc0) (KeysClean_set_location env.foldOrbit _ v hk0)
  · intro up hb
    exact mk _ (setCORSHeaders_fixed _)
      (KeysClean_setCORSHeaders env.foldOrbit _
        (KeysClean_relayHeaders env.foldOrbit up _ hk0))

/-- Witness of C6: the proxied response of the example deployment, whose upstream
sent its own `Access-Control-Allow-Origin`. -/
theorem cors_fixed_on_every_path_witness :
    rawGet demoUpRes.Header "Access-Control-Allow-Origin" = ["https://upstream.example"]
      ∧ CorsFixed (downHandle demoEnv demoReq).w.header :=
  ⟨by decide, (cors_fixed_on_every_path demoEnv demoReq).1.1⟩

/-! ## The paths behind the method check -/

theorem method_not_options (r : Request) (hm : r.Method = "GET" ∨ r.Method = "HEAD") :
    ¬ r.Method = "OPTIONS" := by
  rcases hm with h | h <;> rw [h] <;> decide

theorem method_allowed (r : Request) (hm : r.Method = "GET" ∨ r.Method = "HEAD") :
    ¬ (r.Method ≠ "GET" ∧ r.Method ≠ "HEAD") := by
  rcases hm with h | h
  · exact fun hh => hh.1 h
  · exact fun hh => hh.2 h

/-- A GET or HEAD request that passes the signature gate runs `afterGate`. -/
theorem downHandle_of_gate (env : Env) (r : Request)
    (hm : r.Method = "GET" ∨ r.Method = "HEAD")
    (hg : env.disableSign = true ∨ env.verify r.Path (Values.Get r.Query "sign") = none) :
    downHandle env r =
      afterGate env r ⟨corsHeaders, none, [], [], decide (r.Method = "HEAD")⟩
        (gateEvents env r) := by
  unfold downHandle gateEvents
  simp only [setCORSHeaders_fresh]
  rw [if_neg (method_not_options r hm), if_neg (method_allowed r hm)]
  by_cases hds : env.disableSign = true
  · rw [if_pos hds, if_pos hds]
  · rw [if_neg hds, if_neg hds]
    rcases hg with hg | hg
    · exact absurd hg hds
    · rw [hg]

/-- A GET or HEAD request the verifier refuses ends in `errorResponse` with 401. -/
theorem downHandle_of_refusal (env : Env) (r : Request) (e : String)
    (hm : r.Method = "GET" ∨ r.Method = "HEAD") (hs : env.disableSign = false)
    (hv : env.verify r.Path (Values.Get r.Query "sign") = some e) :
    downHandle env r =
      endWithError ⟨corsHeaders, none, [], [], decide (r.Method = "HEAD")⟩ 401 e
        [Event.verify r.Path (Values.Get r.Query "sign")] := by
  unfold downHandle
  simp only [setCORSHeaders_fresh]
  rw [if_neg (method_not_options r hm), if_neg (method_allowed r hm)]
  rw [if_neg (by simp [hs])]
  rw [hv]

theorem afterGate_of_link (env : Env) (r : Request) (w : ResponseWriter) (ev : List Event)
    (resp : LinkResp) (hl : env.linkService r.Path = .ok resp) :
    afterGate env r w ev =
      if resp.Code ≠ 200 then endWithError w resp.Code resp.Message (ev ++ [Event.resolve r.Path])
      else if (isDirectUA env.lowerTable (getClientUA r) || IsNonChinaRequest env r) = true then
        endWithStatus { w with header := w.header.Set "Location" (fixScheme resp.Data.Url) } 302
          (ev ++ [Event.resolve r.Path])
      else proxyTo env r w resp (fixScheme resp.Data.Url) (ev ++ [Event.resolve r.Path]) := by
  unfold afterGate
  simp only [hl]

/-- The status codes `WriteHeader` takes as the final status: 101 and 200..999. -/
theorem WriteHeader_final (w : ResponseWriter) (code : Int) (hs : w.status = none)
    (hc : code = 101 ∨ (200 ≤ code ∧ code ≤ 999)) :
    WriteHeader w code = .ok { w with status := some (code, w.header) } := by
  unfold WriteHeader
  rw [hs]
  simp only [Option.isSome_none, Bool.false_eq_true, if_false]
  rw [if_neg (by omega), if_neg (by omega)]

theorem errorResponse_final (h : Header) (hb : Bool) (code : Int) (msg : String)
    (hc : code = 101 ∨ (200 ≤ code ∧ code ≤ 999)) :
    errorResponse ⟨h, none, [], [], hb⟩ code msg =
      (⟨h.Set "Content-Type" "application/json; charset=utf-8",
        some (code, h.Set "Content-Type" "application/json; charset=utf-8"), [],
        errorBody hb code msg, hb⟩, none) := by
  unfold errorResponse
  simp only []
  rw [WriteHeader_final _ code rfl hc]
  unfold Write errorBody
  by_cases hbody : (bodyAllowedForStatus code && !hb) = true
  · simp [hbody]
  · simp [hbody]

theorem endWithError_final (h : Header) (hb : Bool) (code : Int) (msg : String)
    (ev : List Event) (hc : code = 101 ∨ (200 ≤ code ∧ code ≤ 999)) :
    endWithError ⟨h, none, [], [], hb⟩ code msg ev =
      ⟨⟨h.Set "Content-Type" "application/json; charset=utf-8",
        some (code, h.Set "Content-Type" "application/json; charset=utf-8"), [],
        errorBody hb code msg, hb⟩, ev, none⟩ := by
  unfold endWithError
  rw [errorResponse_final h hb code msg hc]

theorem errorHeaders_eq :
    corsHeaders.Set "Content-Type" "application/json; charset=utf-8" = errorHeaders := by
  decide

/-- The body of an error response to a GET request whose status allows a body. -/
theorem errorBody_get (code : Int) (msg : String) (h1 : ¬ (100 ≤ code ∧ code ≤ 199))
    (h2 : code ≠ 204) (h3 : code ≠ 304) :
    errorBody false code msg = [Chunk.json ⟨code, msg⟩] := by
  simp [errorBody, bodyAllowedForStatus, h1, h2, h3]

/-- An error response to a HEAD request has no body. -/
theorem errorBody_head (code : Int) (msg : String) : errorBody true code msg = [] := by
  simp [errorBody]

/-! ## Claims C7 and C2: error paths -/

theorem head_flag_of_get (r : Request) (h : r.Method = "GET") :
    decide (r.Method = "HEAD") = false := by
  rw [h]; decide

theorem head_flag_of_head (r : Request) (h : r.Method = "HEAD") :
    decide (r.Method = "HEAD") = true := by
  rw [h]; decide

/-- C7 (amended): for a GET or HEAD request that passes the signature gate and a
decoded envelope whose code is not 200 and is a code the response writer takes as a
final status (101 or 201..999), `downHandle` answers with that code as status, sets no
`Location` header and makes no outbound fetch; the response carries the JSON body of
that code and message when the request is a GET and the code is none of 101, 204 and
304, and no body when the request is a HEAD or the code is 101, 204 or 304. -/
theorem upstream_error_passthrough (env : Env) (r : Request) (resp : LinkResp)
    (hm : r.Method = "GET" ∨ r.Method = "HEAD")
    (hg : env.disableSign = true ∨ env.verify r.Path (Values.Get r.Query "sign") = none)
    (hl : env.linkService r.Path = .ok resp)
    (hc : resp.Code ≠ 200)
    (hv : resp.Code = 101 ∨ (200 ≤ resp.Code ∧ resp.Code ≤ 999)) :
    (downHandle env r).w.status = some (resp.Code, errorHeaders)
      ∧ (downHandle env r).w.header = errorHeaders
      ∧ (r.Method = "GET" → resp.Code ≠ 101 → resp.Code ≠ 204 → resp.Code ≠ 304 →
          (downHandle env r).w.body = [Chunk.json ⟨resp.Code, resp.Message⟩])
      ∧ (r.Method = "HEAD" ∨ resp.Code = 101 ∨ resp.Code = 204 ∨ resp.Code = 304 →
          (downHandle env r).w.body = [])
      ∧ rawGet errorHeaders "Location" = []
      ∧ (downHandle env r).events = gateEvents env r ++ [Event.resolve r.Path]
      ∧ (∀ q, Event.fetch q ∉ (downHandle env r).events)
      ∧ (downHandle env r).fault = none := by
  have heq : downHandle env r =
      ⟨⟨errorHeaders, some (resp.Code, errorHeaders), [],
        errorBody (decide (r.Method = "HEAD")) resp.Code resp.Message,
        decide (r.Method = "HEAD")⟩,
        gateEvents env r ++ [Event.resolve r.Path], none⟩ := by
    rw [downHandle_of_gate env r hm hg, afterGate_of_link env r _ _ resp hl, if_pos hc,
      endWithError_final _ _ _ _ _ hv, errorHeaders_eq]
  rw [heq]
  refine ⟨rfl, rfl, ?_, ?_, by decide, rfl, ?_, rfl⟩
  · intro hget h1 h2 h3
    show errorBody (decide (r.Method = "HEAD")) resp.Code resp.Message = _
    rw [head_flag_of_get r hget]
    exact errorBody_get _ _ (by omega) h2 h3
  · intro h
    show errorBody (decide (r.Method = "HEAD")) resp.Code resp.Message = _
    rcases h with h | h | h | h
    · rw [head_flag_of_head r h]; exact errorBody_head _ _
    · rw [h]; cases decide (r.Method = "HEAD") <;> rfl
    · rw [h]; cases decide (r.Method = "HEAD") <;> rfl
    · rw [h]; cases decide (r.Method = "HEAD") <;> rfl
  · intro q hq
    simp only [gateEvents, List.mem_append, List.mem_singleton] at hq
    rcases hq with hq | hq
    · split_ifs at hq
      · cases hq
      · simp at hq
    · cases hq

/-- Witness of C7: the link service refuses `/secret` with code 403; the GET request
gets the JSON body, the HEAD request gets none. -/
theorem upstream_error_passthrough_witness :
    demoEnv.linkService refusedReq.Path = .ok ⟨403, "path not allowed", ⟨"", []⟩⟩
      ∧ (downHandle demoEnv refusedReq).w.status = some (403, errorHeaders)
      ∧ (downHandle demoEnv refusedReq).w.body = [Chunk.json ⟨403, "path not allowed"⟩]
      ∧ (downHandle demoEnv refusedHeadReq).w.body = [] :=
  have h := upstream_error_passthrough demoEnv refusedReq
    ⟨403, "path not allowed", ⟨"", []⟩⟩ (Or.inl rfl) (Or.inr rfl) rfl (by decide)
    (Or.inr (by decide))
  have h2 := upstream_error_passthrough demoEnv refusedHeadReq
    ⟨403, "path not allowed", ⟨"", []⟩⟩ (Or.inr rfl) (Or.inr rfl) rfl (by decide)
    (Or.inr (by decide))
  ⟨rfl, h.1, h.2.2.1 rfl (by decide) (by decide) (by decide), h2.2.2.2.1 (Or.inl rfl)⟩

/-- Counterexample to C7 as stated: with envelope code 0 the status write is refused,
no status and no body are written; with envelope code 103 the code goes out as an
interim header and the final status is 200; with envelope code 204, 304 or 101 the
status is that code and no body is sent; a HEAD request gets status 403 and no
body. -/
theorem upstream_error_passthrough_counterexample :
    (zeroReq.Method = "GET"
      ∧ oddCodeEnv.verify zeroReq.Path (Values.Get zeroReq.Query "sign") = none
      ∧ oddCodeEnv.linkService zeroReq.Path = .ok ⟨0, "", ⟨"", []⟩⟩
      ∧ (downHandle oddCodeEnv zeroReq).w.status = none
      ∧ (downHandle oddCodeEnv zeroReq).w.body = []
      ∧ (downHandle oddCodeEnv zeroReq).fault = some "invalid WriteHeader code")
    ∧ (oddCodeEnv.linkService demoReq.Path = .ok ⟨103, "early hints", ⟨"", []⟩⟩
      ∧ (downHandle oddCodeEnv demoReq).w.status = some (200, errorHeaders)
      ∧ (downHandle oddCodeEnv demoReq).w.interim = [(103, errorHeaders)])
    ∧ (demoReq.Method = "GET"
      ∧ (envelopeEnv 204).linkService demoReq.Path = .ok ⟨204, "upstream says no", ⟨"", []⟩⟩
      ∧ (downHandle (envelopeEnv 204) demoReq).w.status = some (204, errorHeaders)
      ∧ (downHandle (envelopeEnv 204) demoReq).w.body = []
      ∧ (downHandle (envelopeEnv 304) demoReq).w.status = some (304, errorHeaders)
      ∧ (downHandle (envelopeEnv 304) demoReq).w.body = []
      ∧ (downHandle (envelopeEnv 101) demoReq).w.status = some (101, errorHeaders)
      ∧ (downHandle (envelopeEnv 101) demoReq).w.body = [])
    ∧ (refusedHeadReq.Method = "HEAD"
      ∧ demoEnv.linkService refusedHeadReq.Path = .ok ⟨403, "path not allowed", ⟨"", []⟩⟩
      ∧ (downHandle demoEnv refusedHeadReq).w.status = some (403, errorHeaders)
      ∧ (downHandle demoEnv refusedHeadReq).w.body = []) := by
  refine ⟨⟨rfl, rfl, rfl, ?_, ?_, ?_⟩, ⟨rfl, ?_, ?_⟩, ⟨rfl, rfl, ?_, ?_, ?_, ?_, ?_, ?_⟩,
    ⟨rfl, rfl, ?_, ?_⟩⟩ <;>
    decide

/-- The events of `proxyTo` extend the events it was entered with; writer and fault do
not depend on them. -/
theorem proxyTo_events (env : Env) (r : Request) (w : ResponseWriter) (resp : LinkResp)
    (url : String) (ev : List Event) :
    proxyTo env r w resp url ev =
      ⟨(proxyTo env r w resp url []).w, ev ++ (proxyTo env r w resp url []).events,
        (proxyTo env r w resp url []).fault⟩ := by
  unfold proxyTo
  cases env.newRequestErr r.Method url with
  | some e => simp [endWithError]
  | none =>
    simp only []
    cases env.roundTrip ⟨r.Method, url, delHopByHop (mergeHeaders r.Header resp.Data.Header)⟩ with
    | error e => simp [endWithError]
    | ok upRes =>
      simp only []
      cases WriteHeader (setCORSHeaders
          { w with header := relayHeaders env.foldOrbit w.header upRes.Header })
          upRes.StatusCode with
      | error e => simp
      | ok w2 =>
        simp only []
        split_ifs <;> simp

theorem endWithStatus_events_split (w : ResponseWriter) (code : Int) (ev : List Event) :
    endWithStatus w code ev =
      ⟨(endWithStatus w code []).w, ev ++ (endWithStatus w code []).events,
        (endWithStatus w code []).fault⟩ := by
  unfold endWithStatus
  cases WriteHeader w code <;> simp

/-- The events of `afterGate` extend the events it was entered with; writer and fault
do not depend on them. -/
theorem afterGate_events (env : Env) (r : Request) (w : ResponseWriter) (ev : List Event) :
    afterGate env r w ev =
      ⟨(afterGate env r w []).w, ev ++ (afterGate env r w []).events,
        (afterGate env r w []).fault⟩ := by
  unfold afterGate
  simp only []
  cases env.linkService r.Path with
  | error e => simp [endWithError]
  | ok resp =>
    simp only []
    split_ifs
    · simp [endWithError]
    · rw [endWithStatus_events_split]
      conv_rhs => rw [endWithStatus_events_split]
      simp
    · rw [proxyTo_events]
      conv_rhs => rw [proxyTo_events]
      simp

theorem proxyTo_events_mem (env : Env) (r : Request) (w : ResponseWriter) (resp : LinkResp)
    (url : String) (ev : List Event) (x : Event)
    (hx : x ∈ (proxyTo env r w resp url ev).events) : x ∈ ev ∨ ∃ q, x = Event.fetch q := by
  unfold proxyTo at hx
  cases hn : env.newRequestErr r.Method url with
  | some e => rw [hn] at hx; exact Or.inl hx
  | none =>
    rw [hn] at hx
    simp only [] at hx
    have key : x ∈ ev ++ [Event.fetch
        ⟨r.Method, url, delHopByHop (mergeHeaders r.Header resp.Data.Header)⟩] := by
      cases hr : env.roundTrip
          ⟨r.Method, url, delHopByHop (mergeHeaders r.Header resp.Data.Header)⟩ with
      | error e => rw [hr] at hx; exact hx
      | ok upRes =>
        rw [hr] at hx
        simp only [] at hx
        split at hx
        · exact hx
        · split_ifs at hx <;> exact hx
    simp only [List.mem_append, List.mem_singleton] at key
    rcases key with h | h
    · exact Or.inl h
    · exact Or.inr ⟨_, h⟩

theorem afterGate_events_mem (env : Env) (r : Request) (w : ResponseWriter) (x : Event)
    (hx : x ∈ (afterGate env r w []).events) :
    x = Event.resolve r.Path ∨ ∃ q, x = Event.fetch q := by
  unfold afterGate at hx
  simp only [List.nil_append] at hx
  cases hl : env.linkService r.Path with
  | error e =>
    rw [hl] at hx
    simp only [endWithError_events, List.mem_singleton] at hx
    exact Or.inl hx
  | ok resp =>
    rw [hl] at hx
    simp only [] at hx
    split_ifs at hx
    · simp only [endWithError_events, List.mem_singleton] at hx
      exact Or.inl hx
    · simp only [endWithStatus_events, List.mem_singleton] at hx
      exact Or.inl hx
    · rcases proxyTo_events_mem _ _ _ _ _ _ _ hx with h | h
      · simp only [List.mem_singleton] at h
        exact Or.inl h
      · exact Or.inr h

theorem afterGate_indep (env : Env) (r r2 : Request) (w : ResponseWriter) (ev : List Event)
    (h1 : r2.Method = r.Method) (h2 : r2.Path = r.Path) (h3 : r2.Header = r.Header)
    (h4 : r2.RemoteAddr = r.RemoteAddr) :
    afterGate { env with disableSign := false } r2 w ev = afterGate env r w ev := by
  obtain ⟨m, p, q, h, a⟩ := r
  obtain ⟨m2, p2, q2, hh2, a2⟩ := r2
  simp only at h1 h2 h3 h4
  subst h1 h2 h3 h4
  rfl


/-! ## Claims C8 and C1: target URL and routing -/

theorem hasPrefixList_iff (p : List Char) : ∀ s : List Char, hasPrefixList s p = true ↔ p <+: s := by
  induction p with
  | nil => intro s; cases s <;> simp [hasPrefixList]
  | cons a ps ih =>
    intro s
    cases s with
    | nil => simp [hasPrefixList]
    | cons c cs =>
      simp only [hasPrefixList, Bool.and_eq_true, decide_eq_true_eq, ih, List.cons_prefix_cons]
      constructor
      · rintro ⟨h1, h2⟩; exact ⟨h1.symm, h2⟩
      · rintro ⟨h1, h2⟩; exact ⟨h1.symm, h2⟩

theorem containsList_iff (sub : List Char) : ∀ s : List Char, containsList s sub = true ↔ sub <:+: s := by
  intro s
  induction s with
  | nil =>
    simp only [containsList, hasPrefixList_iff, List.prefix_nil, List.infix_nil]
  | cons c cs ih =>
    simp only [containsList, Bool.or_eq_true, hasPrefixList_iff, ih, List.infix_cons_iff]

theorem hasPrefixList_append (p q : List Char) (s : List Char)
    (h : hasPrefixList s (p ++ q) = true) : hasPrefixList s p = true := by
  rw [hasPrefixList_iff] at h ⊢
  exact List.IsPrefix.trans (List.prefix_append p q) h

theorem HasPrefix_http_of_scheme (url : String)
    (h : HasPrefix url "http://" = true ∨ HasPrefix url "https://" = true) :
    HasPrefix url "http" = true := by
  rcases h with h | h
  · exact hasPrefixList_append "http".data "://".data url.data h
  · exact hasPrefixList_append "http".data "s://".data url.data h

theorem fixScheme_of_http (url : String) (h : HasPrefix url "http" = true) :
    fixScheme url = url := by
  simp [fixScheme, h]

theorem fixScheme_of_not_http (url : String) (h : HasPrefix url "http" = false) :
    fixScheme url = "http:" ++ url := by
  simp [fixScheme, h]

theorem fixScheme_starts_http (url : String) : HasPrefix (fixScheme url) "http" = true := by
  by_cases h : HasPrefix url "http" = true
  · rw [fixScheme_of_http url h]; exact h
  · rw [fixScheme_of_not_http url (by simpa using h)]
    simp [HasPrefix, hasPrefixList, String.data_append]

theorem fixScheme_ne_empty (url : String) : fixScheme url ≠ "" := by
  intro h
  have := fixScheme_starts_http url
  rw [h] at this
  exact absurd this (by decide)

theorem fixScheme_protocol_relative (url : String) (h : HasPrefix url "//" = true) :
    fixScheme url = "http:" ++ url ∧ HasPrefix (fixScheme url) "http://" = true := by
  have hnot : HasPrefix url "http" = false := by
    unfold HasPrefix at h ⊢
    cases hd : url.data with
    | nil => rw [hd] at h; simp [hasPrefixList] at h
    | cons c cs =>
      rw [hd] at h
      simp only [hasPrefixList, Bool.and_eq_true, decide_eq_true_eq] at h
      have hc : c = '/' := h.1
      subst hc
      rfl
  rw [fixScheme_of_not_http url hnot]
  refine ⟨rfl, ?_⟩
  unfold HasPrefix at h ⊢
  cases hd : url.data with
  | nil => rw [hd] at h; simp [hasPrefixList] at h
  | cons c cs =>
    cases cs with
    | nil => rw [hd] at h; simp [hasPrefixList] at h
    | cons c2 cs2 =>
      rw [hd] at h
      simp only [hasPrefixList, Bool.and_eq_true, decide_eq_true_eq] at h
      obtain ⟨h1, h2, _⟩ := h
      subst h1 h2
      simp [String.data_append, hd, hasPrefixList]

theorem isDirectUA_iff (tbl : Char → Char) (ua : String) :
    isDirectUA tbl ua = true ↔
      ∃ k ∈ ["aria2", "wget", "curl", "idm", "openlist-direct"],
        k.data <:+: (ToLower tbl ua).data := by
  unfold isDirectUA
  by_cases h : ua = ""
  · subst h
    have hl : (ToLower tbl "").data = [] := rfl
    simp only [if_true, Bool.false_eq_true, false_iff, hl, List.infix_nil]
    rintro ⟨k, hk, hk2⟩
    simp only [List.mem_cons, List.mem_singleton, List.not_mem_nil, or_false] at hk
    rcases hk with h | h | h | h | h <;> subst h <;> cases hk2
  · simp only [h, if_false, directKeywords, List.any_eq_true, Contains, containsList_iff]

theorem direct_iff (env : Env) (r : Request) :
    (isDirectUA env.lowerTable (getClientUA r) || IsNonChinaRequest env r) = true
      ↔ DirectBySpec env r := by
  unfold DirectBySpec
  rw [Bool.or_eq_true, isDirectUA_iff]

theorem no_resolve_in_gate (env : Env) (r : Request) (p : String) :
    Event.resolve p ∉ gateEvents env r := by
  unfold gateEvents
  split_ifs <;> simp

theorem no_fetch_in_gate_resolve (env : Env) (r : Request) (q : UpstreamRequest) :
    Event.fetch q ∉ gateEvents env r ++ [Event.resolve r.Path] := by
  unfold gateEvents
  split_ifs <;> simp

/-- The run of a request that passes the gate, resolves with code 200 and is routed
direct. -/
theorem downHandle_direct (env : Env) (r : Request) (resp : LinkResp)
    (hm : r.Method = "GET" ∨ r.Method = "HEAD")
    (hg : env.disableSign = true ∨ env.verify r.Path (Values.Get r.Query "sign") = none)
    (hl : env.linkService r.Path = .ok resp) (hc : resp.Code = 200)
    (hd : (isDirectUA env.lowerTable (getClientUA r) || IsNonChinaRequest env r) = true) :
    downHandle env r =
      ⟨⟨corsHeaders.Set "Location" (fixScheme resp.Data.Url),
        some (302, corsHeaders.Set "Location" (fixScheme resp.Data.Url)), [], [],
        decide (r.Method = "HEAD")⟩,
        gateEvents env r ++ [Event.resolve r.Path], none⟩ := by
  rw [downHandle_of_gate env r hm hg, afterGate_of_link env r _ _ resp hl,
    if_neg (by simp [hc]), if_pos hd]
  unfold endWithStatus
  rw [WriteHeader_final _ 302 rfl (Or.inr (by decide))]

/-- The run of a request that passes the gate, resolves with code 200 and is routed
to the proxy branch. -/
theorem downHandle_proxy (env : Env) (r : Request) (resp : LinkResp)
    (hm : r.Method = "GET" ∨ r.Method = "HEAD")
    (hg : env.disableSign = true ∨ env.verify r.Path (Values.Get r.Query "sign") = none)
    (hl : env.linkService r.Path = .ok resp) (hc : resp.Code = 200)
    (hd : ¬ (isDirectUA env.lowerTable (getClientUA r) || IsNonChinaRequest env r) = true) :
    downHandle env r =
      proxyTo env r ⟨corsHeaders, none, [], [], decide (r.Method = "HEAD")⟩ resp
        (fixScheme resp.Data.Url) (gateEvents env r ++ [Event.resolve r.Path]) := by
  rw [downHandle_of_gate env r hm hg, afterGate_of_link env r _ _ resp hl,
    if_neg (by simp [hc]), if_neg hd]

/-- Once the outbound request is built, the proxy branch fetches it exactly once. -/
theorem proxyTo_events_built (env : Env) (r : Request) (w : ResponseWriter) (resp : LinkResp)
    (url : String) (ev : List Event) (hn : env.newRequestErr r.Method url = none) :
    (proxyTo env r w resp url ev).events =
      ev ++ [Event.fetch ⟨r.Method, url, delHopByHop (mergeHeaders r.Header resp.Data.Header)⟩] := by
  unfold proxyTo
  rw [hn]
  simp only []
  cases env.roundTrip ⟨r.Method, url, delHopByHop (mergeHeaders r.Header resp.Data.Header)⟩ with
  | error e => rfl
  | ok upRes =>
    simp only []
    split
    · rfl
    · split_ifs <;> rfl

/-- When building the outbound request fails, the proxy branch answers 500 and does
not fetch. -/
theorem proxyTo_not_built (env : Env) (r : Request) (h : Header) (hb : Bool) (resp : LinkResp)
    (url : String) (ev : List Event) (e : String)
    (hn : env.newRequestErr r.Method url = some e) :
    proxyTo env r ⟨h, none, [], [], hb⟩ resp url ev =
      ⟨⟨h.Set "Content-Type" "application/json; charset=utf-8",
        some (500, h.Set "Content-Type" "application/json; charset=utf-8"), [],
        errorBody hb 500 e, hb⟩, ev, none⟩ := by
  unfold proxyTo
  rw [hn]
  exact endWithError_final h hb 500 e ev (Or.inr (by decide))

/-- The response of a direct run: status 302 and the target URL as `Location`. -/
theorem downHandle_direct_location (env : Env) (r : Request) (resp : LinkResp)
    (hm : r.Method = "GET" ∨ r.Method = "HEAD")
    (hg : env.disableSign = true ∨ env.verify r.Path (Values.Get r.Query "sign") = none)
    (hl : env.linkService r.Path = .ok resp) (hc : resp.Code = 200)
    (hd : (isDirectUA env.lowerTable (getClientUA r) || IsNonChinaRequest env r) = true) :
    (downHandle env r).w.status = some (302, (downHandle env r).w.header)
      ∧ rawGet (downHandle env r).w.header "Location" = [fixScheme resp.Data.Url] := by
  rw [downHandle_direct env r resp hm hg hl hc hd]
  refine ⟨rfl, ?_⟩
  show rawGet (rawSet _ (CanonicalMIMEHeaderKey "Location") _) "Location" = _
  rw [canon_location, rawGet_rawSet_self]

/-- C8 (amended): for a GET or HEAD request that passes the signature gate and a link
resolved with code 200, the target URL is non-empty and begins with `http`; a returned
URL that does not begin with `http` is prefixed with `http:`, so that one beginning
with `//` yields a target beginning with `http://`; a returned URL that begins with
`http`, in particular with `http://` or `https://`, is used unchanged; and this target
is the `Location` of the redirect and the URL of every outbound fetch. -/
theorem target_url_scheme (env : Env) (r : Request) (resp : LinkResp)
    (hm : r.Method = "GET" ∨ r.Method = "HEAD")
    (hg : env.disableSign = true ∨ env.verify r.Path (Values.Get r.Query "sign") = none)
    (hl : env.linkService r.Path = .ok resp) (hc : resp.Code = 200) :
    fixScheme resp.Data.Url ≠ ""
      ∧ HasPrefix (fixScheme resp.Data.Url) "http" = true
      ∧ (HasPrefix resp.Data.Url "http" = false →
          fixScheme resp.Data.Url = "http:" ++ resp.Data.Url)
      ∧ (HasPrefix resp.Data.Url "//" = true →
          HasPrefix (fixScheme resp.Data.Url) "http://" = true)
      ∧ (HasPrefix resp.Data.Url "http" = true → fixScheme resp.Data.Url = resp.Data.Url)
      ∧ (HasPrefix resp.Data.Url "http://" = true ∨ HasPrefix resp.Data.Url "https://" = true →
          fixScheme resp.Data.Url = resp.Data.Url)
      ∧ ((isDirectUA env.lowerTable (getClientUA r) || IsNonChinaRequest env r) = true →
          (downHandle env r).w.status = some (302, (downHandle env r).w.header)
          ∧ rawGet (downHandle env r).w.header "Location" = [fixScheme resp.Data.Url])
      ∧ (∀ q, Event.fetch q ∈ (downHandle env r).events → q.Url = fixScheme resp.Data.Url) := by
  refine ⟨fixScheme_ne_empty _, fixScheme_starts_http _, fixScheme_of_not_http _,
    fun h => (fixScheme_protocol_relative _ h).2, fixScheme_of_http _,
    fun h => fixScheme_of_http _ (HasPrefix_http_of_scheme _ h), ?_, ?_⟩
  · exact downHandle_direct_location env r resp hm hg hl hc
  · intro q hq
    by_cases hd : (isDirectUA env.lowerTable (getClientUA r) || IsNonChinaRequest env r) = true
    · rw [downHandle_direct env r resp hm hg hl hc hd] at hq
      exact absurd hq (no_fetch_in_gate_resolve env r q)
    · rw [downHandle_proxy env r resp hm hg hl hc hd] at hq
      cases hn : env.newRequestErr r.Method (fixScheme resp.Data.Url) with
      | some e =>
        rw [proxyTo_not_built env r _ _ resp _ _ e hn] at hq
        exact absurd hq (no_fetch_in_gate_resolve env r q)
      | none =>
        rw [proxyTo_events_built env r _ resp _ _ hn, List.mem_append] at hq
        rcases hq with hq | hq
        · exact absurd hq (no_fetch_in_gate_resolve env r q)
        · rw [List.mem_singleton] at hq
          rw [Event.fetch.inj hq]

/-- Witness of C8: the protocol-relative URL of the example deployment. -/
theorem target_url_scheme_witness :
    demoEnv.linkService wgetReq.Path = .ok ⟨200, "success", ⟨"//cdn.example/a.mkv", []⟩⟩
      ∧ fixScheme "//cdn.example/a.mkv" = "http://cdn.example/a.mkv"
      ∧ HasPrefix (fixScheme "//cdn.example/a.mkv") "http://" = true
      ∧ rawGet (downHandle demoEnv wgetReq).w.header "Location"
          = [fixScheme "//cdn.example/a.mkv"] :=
  have h := target_url_scheme demoEnv wgetReq ⟨200, "success", ⟨"//cdn.example/a.mkv", []⟩⟩
    (Or.inl rfl) (Or.inr rfl) rfl rfl
  ⟨rfl, by decide, h.2.2.2.1 (by decide), (h.2.2.2.2.2.2.1 (by decide)).2⟩

/-- Counterexample to C8 as stated: a returned URL without scheme and without `//`
gives a redirect target that begins with neither `http://` nor `https://`. -/
theorem target_url_scheme_counterexample :
    wgetReq.Method = "GET"
      ∧ bareUrlEnv.verify wgetReq.Path (Values.Get wgetReq.Query "sign") = none
      ∧ bareUrlEnv.linkService wgetReq.Path = .ok ⟨200, "success", ⟨"cdn.example/a.mkv", []⟩⟩
      ∧ (downHandle bareUrlEnv wgetReq).w.status.map Prod.fst = some 302
      ∧ rawGet (downHandle bareUrlEnv wgetReq).w.header "Location" = ["http:cdn.example/a.mkv"]
      ∧ HasPrefix "http:cdn.example/a.mkv" "http://" = false
      ∧ HasPrefix "http:cdn.example/a.mkv" "https://" = false := by
  refine ⟨rfl, rfl, rfl, ?_, ?_, ?_, ?_⟩ <;> decide

/-- C1 (amended): for a GET or HEAD request that passes the signature gate and a link
resolved with code 200. `downHandle` answers 302 with the target URL as `Location` and
without an outbound fetch exactly when the client user-agent contains, ignoring case,
one of the download-tool names or the caller is non-domestic. In every other case it
takes the proxy branch: when the outbound request cannot be built it answers 500
without a fetch, otherwise it fetches the target URL exactly once. In all cases the
link resolver is called exactly once. -/
theorem routing_decision (env : Env) (r : Request) (resp : LinkResp)
    (hm : r.Method = "GET" ∨ r.Method = "HEAD")
    (hg : env.disableSign = true ∨ env.verify r.Path (Values.Get r.Query "sign") = none)
    (hl : env.linkService r.Path = .ok resp) (hc : resp.Code = 200) :
    (getClientUA r = if r.Header.Get "X-Client-UA" ≠ "" then r.Header.Get "X-Client-UA"
        else r.Header.Get "User-Agent")
    ∧ (DirectBySpec env r ↔
        ((downHandle env r).w.status = some (302, (downHandle env r).w.header)
          ∧ rawGet (downHandle env r).w.header "Location" = [fixScheme resp.Data.Url]
          ∧ ∀ q, Event.fetch q ∉ (downHandle env r).events))
    ∧ (¬ DirectBySpec env r →
        (∀ e, env.newRequestErr r.Method (fixScheme resp.Data.Url) = some e →
          (downHandle env r).w.status = some (500, errorHeaders)
          ∧ (r.Method = "GET" → (downHandle env r).w.body = [Chunk.json ⟨500, e⟩])
          ∧ (r.Method = "HEAD" → (downHandle env r).w.body = [])
          ∧ (downHandle env r).events = gateEvents env r ++ [Event.resolve r.Path])
        ∧ (env.newRequestErr r.Method (fixScheme resp.Data.Url) = none →
          (downHandle env r).events = gateEvents env r ++
            [Event.resolve r.Path,
              Event.fetch ⟨r.Method, fixScheme resp.Data.Url,
                delHopByHop (mergeHeaders r.Header resp.Data.Header)⟩]))
    ∧ (∃ post, (downHandle env r).events = gateEvents env r ++ Event.resolve r.Path :: post
        ∧ (∀ p, Event.resolve p ∉ gateEvents env r) ∧ ∀ p, Event.resolve p ∉ post) := by
  refine ⟨rfl, ?_, ?_, ?_⟩
  · rw [← direct_iff]
    constructor
    · intro hd
      have h8 := downHandle_direct_location env r resp hm hg hl hc hd
      refine ⟨h8.1, h8.2, ?_⟩
      intro q hq
      rw [downHandle_direct env r resp hm hg hl hc hd] at hq
      exact no_fetch_in_gate_resolve env r q hq
    · rintro ⟨hs, _, hf⟩
      by_contra hd
      rw [downHandle_proxy env r resp hm hg hl hc hd] at hs hf
      cases hn : env.newRequestErr r.Method (fixScheme resp.Data.Url) with
      | some e =>
        rw [proxyTo_not_built env r _ _ resp _ _ e hn] at hs
        simp only [Option.some.injEq, Prod.mk.injEq] at hs
        exact absurd hs.1 (by decide)
      | none =>
        refine hf ⟨r.Method, fixScheme resp.Data.Url,
          delHopByHop (mergeHeaders r.Header resp.Data.Header)⟩ ?_
        rw [proxyTo_events_built env r _ resp _ _ hn]
        simp
  · rw [← direct_iff]
    intro hd
    rw [downHandle_proxy env r resp hm hg hl hc hd]
    refine ⟨?_, ?_⟩
    · intro e hn
      rw [proxyTo_not_built env r _ _ resp _ _ e hn, errorHeaders_eq]
      refine ⟨rfl, ?_, ?_, rfl⟩
      · intro hget
        show errorBody (decide (r.Method = "HEAD")) 500 e = _
        rw [head_flag_of_get r hget]
        exact errorBody_get _ _ (by decide) (by decide) (by decide)
      · intro hhead
        show errorBody (decide (r.Method = "HEAD")) 500 e = _
        rw [head_flag_of_head r hhead]
        exact errorBody_head _ _
    · intro hn
      rw [proxyTo_events_built env r _ resp _ _ hn]
      simp
  · by_cases hd : (isDirectUA env.lowerTable (getClientUA r) || IsNonChinaRequest env r) = true
    · rw [downHandle_direct env r resp hm hg hl hc hd]
      exact ⟨[], rfl, no_resolve_in_gate env r, fun p hp => by cases hp⟩
    · rw [downHandle_proxy env r resp hm hg hl hc hd]
      cases hn : env.newRequestErr r.Method (fixScheme resp.Data.Url) with
      | some e =>
        rw [proxyTo_not_built env r _ _ resp _ _ e hn]
        exact ⟨[], rfl, no_resolve_in_gate env r, fun p hp => by cases hp⟩
      | none =>
        rw [proxyTo_events_built env r _ resp _ _ hn]
        refine ⟨[Event.fetch ⟨r.Method, fixScheme resp.Data.Url,
          delHopByHop (mergeHeaders r.Header resp.Data.Header)⟩], by simp,
          no_resolve_in_gate env r, fun p hp => by simp at hp⟩

/-- Witness of C1: in the example deployment Wget is redirected, the domestic client
without user-agent is proxied. -/
theorem routing_decision_witness :
    ((downHandle demoEnv wgetReq).w.status = some (302, (downHandle demoEnv wgetReq).w.header)
      ∧ rawGet (downHandle demoEnv wgetReq).w.header "Location"
          = [fixScheme "//cdn.example/a.mkv"])
    ∧ (downHandle demoEnv demoReq).events = gateEvents demoEnv demoReq ++
        [Event.resolve demoReq.Path,
          Event.fetch ⟨demoReq.Method, fixScheme "//cdn.example/a.mkv",
            delHopByHop (mergeHeaders demoReq.Header [])⟩] :=
  have hw := routing_decision demoEnv wgetReq ⟨200, "success", ⟨"//cdn.example/a.mkv", []⟩⟩
    (Or.inl rfl) (Or.inr rfl) rfl rfl
  have hp := routing_decision demoEnv demoReq ⟨200, "success", ⟨"//cdn.example/a.mkv", []⟩⟩
    (Or.inl rfl) (Or.inr rfl) rfl rfl
  ⟨⟨(hw.2.1.1 ((direct_iff demoEnv wgetReq).1 (by decide))).1,
    (hw.2.1.1 ((direct_iff demoEnv wgetReq).1 (by decide))).2.1⟩,
    (hp.2.2.1 (fun h => absurd ((direct_iff demoEnv demoReq).2 h) (by decide))).2 rfl⟩

/-- Counterexample to C1 as stated: a domestic client without user-agent, a link
resolved with code 200, and a target URL for which the outbound request cannot be
built: the answer is 500 and nothing is fetched. -/
theorem routing_decision_counterexample :
    demoReq.Method = "GET"
      ∧ badUrlEnv.verify demoReq.Path (Values.Get demoReq.Query "sign") = none
      ∧ badUrlEnv.linkService demoReq.Path
          = .ok ⟨200, "success", ⟨"//cdn example/a.mkv", []⟩⟩
      ∧ getClientUA demoReq = ""
      ∧ isDirectUA badUrlEnv.lowerTable (getClientUA demoReq) = false
      ∧ IsNonChinaRequest badUrlEnv demoReq = false
      ∧ (downHandle badUrlEnv demoReq).w.status.map Prod.fst = some 500
      ∧ (downHandle badUrlEnv demoReq).events
          = [Event.verify "/movies/a.mkv" "good", Event.resolve "/movies/a.mkv"] := by
  refine ⟨rfl, rfl, rfl, ?_, ?_, ?_, ?_, ?_⟩ <;> decide

/-! ## Claim C2: the signature gate -/

theorem afterGate_of_link_error (env : Env) (r : Request) (w : ResponseWriter)
    (ev : List Event) (e : String) (hl : env.linkService r.Path = .error e) :
    afterGate env r w ev = endWithError w 502 e (ev ++ [Event.resolve r.Path]) := by
  unfold afterGate
  simp only [hl]

theorem gateEvents_disabled (env : Env) (r : Request) (hs : env.disableSign = true) :
    gateEvents env r = [] := by
  simp [gateEvents, hs]

/-- A run of `afterGate` calls the link resolver first, and after it at most fetches. -/
theorem afterGate_events_shape (env : Env) (r : Request) (w : ResponseWriter) :
    ∃ post, (afterGate env r w []).events = Event.resolve r.Path :: post
      ∧ ∀ x ∈ post, ∃ q, x = Event.fetch q := by
  unfold afterGate
  simp only [List.nil_append]
  cases hl : env.linkService r.Path with
  | error e => exact ⟨[], rfl, fun x hx => by cases hx⟩
  | ok resp =>
    simp only []
    split_ifs
    · exact ⟨[], rfl, fun x hx => by cases hx⟩
    · exact ⟨[], endWithStatus_events _ _ _, fun x hx => by cases hx⟩
    · refine ⟨(proxyTo env r w resp (fixScheme resp.Data.Url) []).events, ?_, ?_⟩
      · rw [proxyTo_events]
        rfl
      · intro x hx
        rcases proxyTo_events_mem _ _ _ _ _ _ _ hx with h | h
        · cases h
        · exact h

/-- C2 (amended): for a GET or HEAD request. With signing on and a verifier error `e`,
`downHandle` answers 401, for a GET with the JSON body of 401 and `e` and for a HEAD
with no body, and its only collaborator call is the verification. With signing off
the verifier is never called and the run goes on to link resolution and routing: its
first collaborator call is the link resolution of the request path, followed at most
by fetches; a resolver failure gives 502; a link resolved with code 200 gives the 302
redirect to the target URL when the routing condition holds, and otherwise the proxy
branch (a fetch of the target URL, or 500 when the outbound request cannot be built);
and the run gives the same response as, and the events that follow the verification
of, a run with signing on of a request that differs only in its query and that the
verifier accepts. -/
theorem signature_gate (env : Env) (r : Request)
    (hm : r.Method = "GET" ∨ r.Method = "HEAD") :
    (env.disableSign = false →
      ∀ e, env.verify r.Path (Values.Get r.Query "sign") = some e →
        (downHandle env r).w.status = some (401, errorHeaders)
        ∧ (r.Method = "GET" → (downHandle env r).w.body = [Chunk.json ⟨401, e⟩])
        ∧ (r.Method = "HEAD" → (downHandle env r).w.body = [])
        ∧ (downHandle env r).events = [Event.verify r.Path (Values.Get r.Query "sign")]
        ∧ (∀ p, Event.resolve p ∉ (downHandle env r).events)
        ∧ (∀ q, Event.fetch q ∉ (downHandle env r).events)
        ∧ (downHandle env r).fault = none)
    ∧ (env.disableSign = true →
      (∀ p s, Event.verify p s ∉ (downHandle env r).events)
      ∧ (∃ post, (downHandle env r).events = Event.resolve r.Path :: post
          ∧ ∀ x ∈ post, ∃ q, x = Event.fetch q)
      ∧ (∀ e, env.linkService r.Path = .error e →
          (downHandle env r).w.status = some (502, errorHeaders)
          ∧ (downHandle env r).events = [Event.resolve r.Path])
      ∧ (∀ resp, env.linkService r.Path = .ok resp → resp.Code = 200 →
          (DirectBySpec env r →
            (downHandle env r).w.status = some (302, (downHandle env r).w.header)
            ∧ rawGet (downHandle env r).w.header "Location" = [fixScheme resp.Data.Url]
            ∧ (downHandle env r).events = [Event.resolve r.Path])
          ∧ (¬ DirectBySpec env r →
            (env.newRequestErr r.Method (fixScheme resp.Data.Url) = none →
              (downHandle env r).events =
                [Event.resolve r.Path,
                  Event.fetch ⟨r.Method, fixScheme resp.Data.Url,
                    delHopByHop (mergeHeaders r.Header resp.Data.Header)⟩])
            ∧ (∀ e, env.newRequestErr r.Method (fixScheme resp.Data.Url) = some e →
              (downHandle env r).w.status = some (500, errorHeaders)
              ∧ (downHandle env r).events = [Event.resolve r.Path])))
      ∧ ∀ r2 : Request, r2.Method = r.Method → r2.Path = r.Path → r2.Header = r.Header →
          r2.RemoteAddr = r.RemoteAddr →
          env.verify r2.Path (Values.Get r2.Query "sign") = none →
          (downHandle { env with disableSign := false } r2).w = (downHandle env r).w
          ∧ (downHandle { env with disableSign := false } r2).fault = (downHandle env r).fault
          ∧ (downHandle { env with disableSign := false } r2).events
              = Event.verify r2.Path (Values.Get r2.Query "sign") :: (downHandle env r).events) := by
  refine ⟨?_, ?_⟩
  · intro hs e hv
    rw [downHandle_of_refusal env r e hm hs hv,
      endWithError_final _ _ _ _ _ (Or.inr (by decide)), errorHeaders_eq]
    refine ⟨rfl, ?_, ?_, rfl, ?_, ?_, rfl⟩
    · intro hget
      show errorBody (decide (r.Method = "HEAD")) 401 e = _
      rw [head_flag_of_get r hget]
      exact errorBody_get _ _ (by decide) (by decide) (by decide)
    · intro hhead
      show errorBody (decide (r.Method = "HEAD")) 401 e = _
      rw [head_flag_of_head r hhead]
      exact errorBody_head _ _
    · intro p hp; simp at hp
    · intro q hq; simp at hq
  · intro hs
    have hg : env.disableSign = true ∨ env.verify r.Path (Values.Get r.Query "sign") = none :=
      Or.inl hs
    have hrun : downHandle env r =
        afterGate env r ⟨corsHeaders, none, [], [], decide (r.Method = "HEAD")⟩ [] := by
      rw [downHandle_of_gate env r hm hg, gateEvents_disabled env r hs]
    refine ⟨?_, ?_, ?_, ?_, ?_⟩
    · intro p s hmem
      rw [hrun] at hmem
      rcases afterGate_events_mem _ _ _ _ hmem with h | ⟨q, h⟩ <;> cases h
    · rw [hrun]
      exact afterGate_events_shape env r _
    · intro e hl
      rw [hrun, afterGate_of_link_error env r _ _ e hl,
        endWithError_final _ _ _ _ _ (Or.inr (by decide)), errorHeaders_eq]
      exact ⟨rfl, rfl⟩
    · intro resp hl hc
      refine ⟨?_, ?_⟩
      · intro hd
        have hd2 := (direct_iff env r).2 hd
        have h8 := downHandle_direct_location env r resp hm hg hl hc hd2
        refine ⟨h8.1, h8.2, ?_⟩
        rw [downHandle_direct env r resp hm hg hl hc hd2, gateEvents_disabled env r hs]
        rfl
      · intro hd
        have hd2 : ¬ (isDirectUA env.lowerTable (getClientUA r) || IsNonChinaRequest env r)
            = true := fun h => hd ((direct_iff env r).1 h)
        rw [downHandle_proxy env r resp hm hg hl hc hd2, gateEvents_disabled env r hs]
        refine ⟨?_, ?_⟩
        · intro hn
          rw [proxyTo_events_built env r _ resp _ _ hn]
          rfl
        · intro e hn
          rw [proxyTo_not_built env r _ _ resp _ _ e hn, errorHeaders_eq]
          exact ⟨rfl, rfl⟩
    · intro r2 h1 h2 h3 h4 hv
      have hm2 : r2.Method = "GET" ∨ r2.Method = "HEAD" := by rw [h1]; exact hm
      have hrun2 : downHandle { env with disableSign := false } r2
          = afterGate env r ⟨corsHeaders, none, [], [], decide (r.Method = "HEAD")⟩
              [Event.verify r2.Path (Values.Get r2.Query "sign")] := by
        rw [downHandle_of_gate { env with disableSign := false } r2 hm2 (Or.inr hv)]
        simp only [gateEvents, Bool.false_eq_true, if_false]
        rw [h1]
        exact afterGate_indep env r r2 _ _ h1 h2 h3 h4
      rw [hrun2, hrun, afterGate_events]
      exact ⟨rfl, rfl, rfl⟩

/-- Witness of C2: the example deployment refuses an unsigned GET with 401 and the
JSON body; with signing off it resolves the link for the unsigned request first and
serves it as it serves the signed one. -/
theorem signature_gate_witness :
    ((downHandle demoEnv unsignedReq).w.status = some (401, errorHeaders)
      ∧ (downHandle demoEnv unsignedReq).w.body = [Chunk.json ⟨401, "sign mismatch"⟩])
    ∧ (∃ post, (downHandle unsignedEnv unsignedReq).events
        = Event.resolve unsignedReq.Path :: post ∧ ∀ x ∈ post, ∃ q, x = Event.fetch q)
    ∧ (downHandle { unsignedEnv with disableSign := false } demoReq).w
        = (downHandle unsignedEnv unsignedReq).w
    ∧ (downHandle unreachableEnv unsignedReq).w.status = some (502, errorHeaders) :=
  ⟨⟨((signature_gate demoEnv unsignedReq (Or.inl rfl)).1 rfl "sign mismatch" rfl).1,
    ((signature_gate demoEnv unsignedReq (Or.inl rfl)).1 rfl "sign mismatch" rfl).2.1 rfl⟩,
    ((signature_gate unsignedEnv unsignedReq (Or.inl rfl)).2 rfl).2.1,
    (((signature_gate unsignedEnv unsignedReq (Or.inl rfl)).2 rfl).2.2.2.2 demoReq rfl rfl rfl
      rfl rfl).1,
    ((((signature_gate unreachableEnv unsignedReq (Or.inl rfl)).2 rfl).2.2.1)
      "connection refused" rfl).1⟩

/-- Counterexample to C2 as stated: a HEAD request the verifier refuses is answered
401 without a body. -/
theorem signature_gate_counterexample :
    unsignedHeadReq.Method = "HEAD"
      ∧ demoEnv.disableSign = false
      ∧ demoEnv.verify unsignedHeadReq.Path (Values.Get unsignedHeadReq.Query "sign")
          = some "sign mismatch"
      ∧ (downHandle demoEnv unsignedHeadReq).w.status = some (401, errorHeaders)
      ∧ (downHandle demoEnv unsignedHeadReq).w.body = [] := by
  refine ⟨rfl, rfl, rfl, ?_, ?_⟩ <;> decide

/-! ## Claims C3 and C4: the outbound request headers -/

theorem rawGet_filter_key (k : String) (key : String) :
    ∀ h : Header, rawGet (h.filter (fun e => !decide (e.1 = k))) key
      = if key = k then [] else rawGet h key := by
  intro h
  induction h with
  | nil => simp [rawGet]
  | cons x t ih =>
    obtain ⟨k3, w⟩ := x
    by_cases h1 : k3 = k
    · subst h1
      by_cases h2 : key = k3
      · subst h2
        simpa [List.filter, rawGet] using ih
      · simp [List.filter, rawGet, ih, h2, Ne.symm h2]
    · by_cases h2 : k3 = key
      · subst h2
        simp [List.filter, rawGet, h1]
      · simp [List.filter, rawGet, h1, h2, ih]

theorem rawGet_Del_of_nil (h : Header) (k key : String) (hk : rawGet h key = []) :
    rawGet (h.Del k) key = [] := by
  unfold Header.Del
  rw [rawGet_filter_key]
  split_ifs
  · rfl
  · exact hk

theorem rawGet_foldl_Del_of_nil (ks : List String) (key : String) :
    ∀ h : Header, rawGet h key = [] → rawGet (ks.foldl (fun m k => m.Del k) h) key = [] := by
  induction ks with
  | nil => intro h hk; exact hk
  | cons k t ih => intro h hk; exact ih _ (rawGet_Del_of_nil h k key hk)

/-- The second loop of `delHopByHop` never runs: `Connection` is read after it has been
deleted, so only the fixed list is removed. -/
theorem delHopByHop_fixed_only (h : Header) :
    delHopByHop h = hopByHopHeaders.foldl (fun m k => m.Del k) h := by
  have hget : (hopByHopHeaders.foldl (fun m k => m.Del k) h).Get "Connection" = "" := by
    have h1 : rawGet (hopByHopHeaders.foldl (fun m k => m.Del k) h) "Connection" = [] := by
      show rawGet (["Proxy-Connection", "Keep-Alive", "Proxy-Authenticate",
        "Proxy-Authorization", "TE", "Trailer", "Transfer-Encoding", "Upgrade"].foldl
        (fun m k => m.Del k) (h.Del "Connection")) "Connection" = []
      apply rawGet_foldl_Del_of_nil
      unfold Header.Del
      rw [rawGet_filter_key]
      rw [if_pos (by decide)]
    unfold Header.Get
    rw [show CanonicalMIMEHeaderKey "Connection" = "Connection" by decide, h1]
  unfold delHopByHop
  simp only [hget, ne_eq, not_true_eq_false, if_false]

/-- C4, the code at the failing input: the request names `X-Trace` in its
`Connection` header; `delHopByHop` removes `Connection` and leaves `X-Trace`, which
goes out with the fetch. -/
theorem delHopByHop_keeps_connection_listed :
    delHopByHop [("Connection", ["keep-alive, X-Trace"]), ("X-Trace", ["abc"])]
        = [("X-Trace", ["abc"])]
      ∧ (downHandle demoEnv perHopReq).events
        = [Event.verify "/movies/a.mkv" "good", Event.resolve "/movies/a.mkv",
            Event.fetch ⟨"GET", "http://cdn.example/a.mkv", [("X-Trace", ["abc"])]⟩] := by
  refine ⟨?_, ?_⟩ <;> decide

/-- C3, the code at the failing input: the client sends `Referer` with the empty
value and the link service suggests a `Referer`; the outbound request carries both
values under the client-defined name. -/
theorem mergeHeaders_adds_to_empty_client_header :
    mergeHeaders [("Referer", [""])] [("Referer", ["https://drive.example/"])]
        = [("Referer", ["", "https://drive.example/"])]
      ∧ (downHandle refererEnv emptyRefererReq).events
        = [Event.verify "/movies/a.mkv" "good", Event.resolve "/movies/a.mkv",
            Event.fetch ⟨"GET", "http://cdn.example/a.mkv",
              [("Referer", ["", "https://drive.example/"])]⟩]
      ∧ mergeHeaders [("Range", ["bytes=0-10"])] [("Range", ["bytes=100-200"])]
        = [("Range", ["bytes=0-10"])] := by
  refine ⟨?_, ?_, ?_⟩ <;> decide

end OpenListProxy
